import Mathlib

/-!
Verification of go-cfclient: paginated collection fetch, entity hydration,
timestamps.

A shallow embedding of `apps.go` and `routes.go`: the paginated fetchers
`listApps` and `fetchRoutes`, the hydration of envelopes, the timestamp
decoders `sinceTime` and `statTime`, and the one-shot calls `GetAppByGuid`,
`AssignDropletToApp` and `KillAppInstance`.

* Go `error` values are `Option GoError` (`none` is `nil`).
* Go slices are `Option (List α)` (`none` is the nil slice), so that
  `[]App{}` and `var routes []Route` stay distinguishable.
* The HTTP transport (`Client.DoRequest`), `ioutil.ReadAll` and
  `json.Unmarshal` are outside these two files; they are taken as
  parameters (`Client`, `Response.Body`, `Codec`).
* The `for { ... }` loops of `listApps` and `fetchRoutes` have no static
  bound, so the embedding threads a fuel counter: `none` means the fuel ran
  out before the loop left.  Every result below is stated for any fuel that
  covers the number of pages fetched.
* The request log (`Fetched.requests`) is ghost state: it records, in order,
  each request handed to `DoRequest`.
* For the data-model structures, `default` is the Go zero value (empty
  strings, zero numbers, `false`, nil slices and pointers).
* `totalPages` and the `pages` counter are Go `int`s, embedded as unbounded
  `Int`: when `totalPages > 0` the counter stops at `totalPages`, and when
  `totalPages <= 0` its value is never consulted, so wrap-around cannot
  change the control flow.
-/

namespace cfclient

/-! ## Errors, slices, transport -/

/-- A non-nil Go `error`: either produced by a collaborator, or wrapped with a
message by `errors.Wrap`. -/
inductive GoError where
  | base (msg : String)
  | wrapped (cause : GoError) (msg : String)
  deriving DecidableEq, Repr

/-- The function `errors.Wrap` of `github.com/pkg/errors`: wrapping `nil`
gives `nil`, wrapping an error gives a non-nil error carrying the message. -/
def errorsWrap (err : Option GoError) (msg : String) : Option GoError :=
  match err with
  | none => none
  | some e => some (GoError.wrapped e msg)

/-- Go `append(s, x)` on a slice that may be nil. -/
def goAppend {α : Type} (s : Option (List α)) (x : α) : Option (List α) :=
  some (s.getD [] ++ [x])

/-- Handle standing for a `*Client` pointer stored in an entity. -/
abbrev ClientRef := Nat

/-- The request value built by `c.NewRequest(method, url)`. -/
structure Request where
  method : String
  url : String
  deriving DecidableEq, Repr

/-- The `*http.Response` handed back by `DoRequest`; `Body` is what
`ioutil.ReadAll(resp.Body)` yields. -/
structure Response where
  StatusCode : Int
  Body : Except GoError String

/-- The client. `DoRequest log r` is the outcome of executing `r` after the
requests in `log` were executed (the server may answer differently as its
state changes). -/
structure Client where
  ref : ClientRef
  DoRequest : List Request → Request → Except GoError Response

/-- The method `c.NewRequest`. -/
def Client.NewRequest (_c : Client) (method url : String) : Request :=
  ⟨method, url⟩

/-! ## Data model -/

/-- Raw JSON object kept as key/value text (`map[string]interface{}`). -/
abbrev JSONObject := List (String × String)

/-- Modelled from the spec: the package type `Meta` is declared outside
`apps.go` and `routes.go`; the envelope metadata carries the identity and the
audit timestamps, which are the fields the code reads. -/
structure Meta where
  Guid : String
  CreatedAt : String
  UpdatedAt : String
  deriving DecidableEq, Repr, Inhabited

/-- Modelled from the spec: the package type `Org` is declared outside these
files; only its `Guid` field is touched here. -/
structure Org where
  Guid : String
  deriving DecidableEq, Repr, Inhabited

/-- Modelled from the spec: the package type `OrgResource`, an envelope around
`Org`, is declared outside these files. -/
structure OrgResource where
  Meta : Meta
  Entity : Org
  deriving DecidableEq, Repr, Inhabited

/-- Modelled from the spec: the package type `Space` is declared outside these
files; the code touches its `Guid`, its nested `OrgData` envelope and its
client back-reference `c`. -/
structure Space where
  Guid : String
  OrgData : OrgResource
  c : Option ClientRef
  deriving DecidableEq, Repr, Inhabited

/-- Modelled from the spec: the package type `SpaceResource`, an envelope
around `Space`, is declared outside these files. -/
structure SpaceResource where
  Meta : Meta
  Entity : Space
  deriving DecidableEq, Repr, Inhabited

/-- The struct `App` of `apps.go`. -/
structure App where
  Guid : String
  CreatedAt : String
  UpdatedAt : String
  Name : String
  Memory : Int
  Instances : Int
  DiskQuota : Int
  SpaceGuid : String
  StackGuid : String
  State : String
  PackageState : String
  Command : String
  Buildpack : String
  DetectedBuildpack : String
  DetectedBuildpackGuid : String
  HealthCheckHttpEndpoint : String
  HealthCheckType : String
  HealthCheckTimeout : Int
  Diego : Bool
  EnableSSH : Bool
  DetectedStartCommand : String
  DockerImage : String
  DockerCredentials : JSONObject
  Environment : JSONObject
  StagingFailedReason : String
  StagingFailedDescription : String
  Ports : List Int
  SpaceURL : String
  SpaceData : SpaceResource
  PackageUpdatedAt : String
  c : Option ClientRef
  deriving DecidableEq, Repr, Inhabited

/-- The struct `AppResource` of `apps.go`. -/
structure AppResource where
  Meta : Meta
  Entity : App
  deriving DecidableEq, Repr, Inhabited

/-- The struct `AppResponse` of `apps.go`. -/
structure AppResponse where
  Count : Int
  Pages : Int
  NextUrl : String
  Resources : List AppResource
  deriving DecidableEq, Repr, Inhabited

/-- The struct `Route` of `routes.go`. -/
structure Route where
  Guid : String
  Host : String
  Path : String
  DomainGuid : String
  SpaceGuid : String
  ServiceInstanceGuid : String
  Port : Int
  c : Option ClientRef
  deriving DecidableEq, Repr, Inhabited

/-- The anonymous struct of the field `RoutesResource.Meta`. -/
structure RoutesMeta where
  GUID : String
  deriving DecidableEq, Repr, Inhabited

/-- The struct `RoutesResource` of `routes.go`. -/
structure RoutesResource where
  Meta : RoutesMeta
  Entity : Route
  deriving DecidableEq, Repr, Inhabited

/-- The struct `RoutesResponse` of `routes.go`. -/
structure RoutesResponse where
  Count : Int
  Pages : Int
  NextUrl : String
  Resources : List RoutesResource
  deriving DecidableEq, Repr, Inhabited

/-- The calls `json.Unmarshal(resBody, &v)` into a fresh zero value `v`, one
decoder per target type. -/
structure Codec where
  appResponse : String → Except GoError AppResponse
  appResource : String → Except GoError AppResource
  routesResponse : String → Except GoError RoutesResponse

/-- What a paginated fetch hands back: the returned slice, the returned
error, and the requests it issued, in order. -/
structure Fetched (α : Type) where
  result : Option (List α)
  err : Option GoError
  requests : List Request
  deriving DecidableEq, Repr

/-! ## `apps.go` -/

/-- Body of `for _, app := range appResp.Resources` in `listApps`, up to the
`append`: the five assignments on the loop copy `app`, yielding `app.Entity`. -/
def listAppsHydrate (c : Client) (app : AppResource) : App :=
  let e1 : App := { app.Entity with Guid := app.Meta.Guid }
  let e2 : App := { e1 with CreatedAt := app.Meta.CreatedAt }
  let e3 : App := { e2 with UpdatedAt := app.Meta.UpdatedAt }
  let e4 : App :=
    { e3 with SpaceData := { e3.SpaceData with
        Entity := { e3.SpaceData.Entity with Guid := e3.SpaceData.Meta.Guid } } }
  let e5 : App :=
    { e4 with SpaceData := { e4.SpaceData with
        Entity := { e4.SpaceData.Entity with
          OrgData := { e4.SpaceData.Entity.OrgData with
            Entity := { e4.SpaceData.Entity.OrgData.Entity with
              Guid := e4.SpaceData.Entity.OrgData.Meta.Guid } } } } }
  { e5 with c := some c.ref }

/-- The `for { ... }` loop of `listApps`. State: `requestUrl`, `pages`,
`apps`, and the request log. -/
def listAppsLoop (J : Codec) (c : Client) (totalPages : Int) :
    Nat → String → Int → Option (List App) → List Request → Option (Fetched App)
  | 0, _, _, _, _ => none
  | fuel + 1, requestUrl, pages, apps, log =>
    let r := c.NewRequest "GET" requestUrl
    match c.DoRequest log r with
    | .error err => some ⟨none, errorsWrap (some err) "Error requesting apps", log ++ [r]⟩
    | .ok resp =>
      match resp.Body with
      | .error err => some ⟨none, errorsWrap (some err) "Error reading app request", log ++ [r]⟩
      | .ok resBody =>
        match J.appResponse resBody with
        | .error err => some ⟨none, errorsWrap (some err) "Error unmarshalling app", log ++ [r]⟩
        | .ok appResp =>
          let apps := appResp.Resources.foldl (fun acc app => goAppend acc (listAppsHydrate c app)) apps
          let requestUrl := appResp.NextUrl
          if requestUrl = "" then some ⟨apps, none, log ++ [r]⟩
          else
            let pages := pages + 1
            if totalPages > 0 ∧ pages ≥ totalPages then some ⟨apps, none, log ++ [r]⟩
            else listAppsLoop J c totalPages fuel requestUrl pages apps (log ++ [r])

/-- The method `listApps`: `pages := 0`, `apps := []App{}`, then the loop. -/
def listApps (J : Codec) (c : Client) (fuel : Nat) (requestUrl : String) (totalPages : Int) :
    Option (Fetched App) :=
  listAppsLoop J c totalPages fuel requestUrl 0 (some []) []

/-- The method `ListAppsByQueryWithLimits`; `encodedQuery` is `query.Encode()`. -/
def ListAppsByQueryWithLimits (J : Codec) (c : Client) (fuel : Nat) (encodedQuery : String)
    (totalPages : Int) : Option (Fetched App) :=
  listApps J c fuel ("/v2/apps?" ++ encodedQuery) totalPages

/-- The method `ListAppsByQuery`; `encodedQuery` is `query.Encode()`. -/
def ListAppsByQuery (J : Codec) (c : Client) (fuel : Nat) (encodedQuery : String) :
    Option (Fetched App) :=
  listApps J c fuel ("/v2/apps?" ++ encodedQuery) (-1)

/-- The method `GetAppByGuid`. -/
def GetAppByGuid (J : Codec) (c : Client) (guid : String) : App × Option GoError :=
  let zero : App := (default : App)
  let r := c.NewRequest "GET" ("/v2/apps/" ++ guid ++ "?inline-relations-depth=2")
  match c.DoRequest [] r with
  | .error err => (zero, errorsWrap (some err) "Error requesting apps")
  | .ok resp =>
    match resp.Body with
    | .error err => (zero, errorsWrap (some err) "Error reading app response body")
    | .ok resBody =>
      match J.appResource resBody with
      | .error err => (zero, errorsWrap (some err) "Error unmarshalling app")
      | .ok appResource =>
        let e1 : App := { appResource.Entity with Guid := appResource.Meta.Guid }
        let e2 : App :=
          { e1 with SpaceData := { e1.SpaceData with
              Entity := { e1.SpaceData.Entity with Guid := e1.SpaceData.Meta.Guid } } }
        let e3 : App :=
          { e2 with SpaceData := { e2.SpaceData with
              Entity := { e2.SpaceData.Entity with
                OrgData := { e2.SpaceData.Entity.OrgData with
                  Entity := { e2.SpaceData.Entity.OrgData.Entity with
                    Guid := e2.SpaceData.Entity.OrgData.Meta.Guid } } } } }
        ({ e3 with c := some c.ref }, none)

/-! ## `routes.go` -/

/-- The method `getRoutesResponse`; `log` holds the requests executed so far. -/
def getRoutesResponse (J : Codec) (c : Client) (log : List Request) (requestUrl : String) :
    RoutesResponse × Option GoError :=
  let r := c.NewRequest "GET" requestUrl
  match c.DoRequest log r with
  | .error err => (default, errorsWrap (some err) "Error requesting routes")
  | .ok resp =>
    match resp.Body with
    | .error err => (default, errorsWrap (some err) "Error reading routes body")
    | .ok resBody =>
      match J.routesResponse resBody with
      | .error err => (default, errorsWrap (some err) "Error unmarshalling routes")
      | .ok routesResp => (routesResp, none)

/-- Body of `for _, route := range routesResp.Resources` in `fetchRoutes`, up
to the `append`: the two assignments on the loop copy, yielding `route.Entity`. -/
def fetchRoutesHydrate (c : Client) (route : RoutesResource) : Route :=
  let e1 : Route := { route.Entity with Guid := route.Meta.GUID }
  { e1 with c := some c.ref }

/-- The `for { ... }` loop of `fetchRoutes`. State: `requestUrl`, `routes`,
and the request log. -/
def fetchRoutesLoop (J : Codec) (c : Client) :
    Nat → String → Option (List Route) → List Request → Option (Fetched Route)
  | 0, _, _, _ => none
  | fuel + 1, requestUrl, routes, log =>
    let out := getRoutesResponse J c log requestUrl
    let routesResp := out.1
    let log := log ++ [c.NewRequest "GET" requestUrl]
    match out.2 with
    | some err => some ⟨some [], some err, log⟩
    | none =>
      let routes :=
        routesResp.Resources.foldl (fun acc route => goAppend acc (fetchRoutesHydrate c route)) routes
      let requestUrl := routesResp.NextUrl
      if requestUrl = "" then some ⟨routes, none, log⟩
      else fetchRoutesLoop J c fuel requestUrl routes log

/-- The method `fetchRoutes`: `var routes []Route` (nil), then the loop. -/
def fetchRoutes (J : Codec) (c : Client) (fuel : Nat) (requestUrl : String) :
    Option (Fetched Route) :=
  fetchRoutesLoop J c fuel requestUrl none []

/-! ## Page chains

The hypotheses of the pagination results: what the server answers along the
cursor chain. -/

/-- What one iteration of `listApps` obtains for `requestUrl`: the error it
returns (already wrapped), or the decoded page. -/
def appsRound (J : Codec) (c : Client) (log : List Request) (requestUrl : String) :
    Except GoError AppResponse :=
  match c.DoRequest log (c.NewRequest "GET" requestUrl) with
  | .error err => .error (GoError.wrapped err "Error requesting apps")
  | .ok resp =>
    match resp.Body with
    | .error err => .error (GoError.wrapped err "Error reading app request")
    | .ok resBody =>
      match J.appResponse resBody with
      | .error err => .error (GoError.wrapped err "Error unmarshalling app")
      | .ok appResp => .ok appResp

/-- The page one iteration of `listApps` decodes for `requestUrl`: `some` when
the request, the body read and the decoding all succeed. -/
def appsPage (J : Codec) (c : Client) (log : List Request) (requestUrl : String) :
    Option AppResponse :=
  match appsRound J c log requestUrl with
  | .error _ => none
  | .ok appResp => some appResp

/-- The page `getRoutesResponse` decodes for `requestUrl`: `some` when it
returns a nil error. -/
def routesPage (J : Codec) (c : Client) (log : List Request) (requestUrl : String) :
    Option RoutesResponse :=
  match (getRoutesResponse J c log requestUrl).2 with
  | some _ => none
  | none => some (getRoutesResponse J c log requestUrl).1

/-- The chain `AppChain J c log url pages`: after the requests in `log`,
requesting `url` decodes to the first page of `pages`, requesting that page's
`next_url` decodes to the second page, and so on through the list. -/
def AppChain (J : Codec) (c : Client) : List Request → String → List AppResponse → Prop
  | _, _, [] => True
  | log, url, p :: ps =>
    appsPage J c log url = some p ∧ AppChain J c (log ++ [c.NewRequest "GET" url]) p.NextUrl ps

/-- The chain `RouteChain J c log url pages`: as `AppChain`, for route pages. -/
def RouteChain (J : Codec) (c : Client) : List Request → String → List RoutesResponse → Prop
  | _, _, [] => True
  | log, url, p :: ps =>
    routesPage J c log url = some p ∧ RouteChain J c (log ++ [c.NewRequest "GET" url]) p.NextUrl ps

/-- The URLs requested when walking a chain from `url`: `url`, then the
`next_url` of every page but the last. -/
def chainUrls {π : Type} (next : π → String) : String → List π → List String
  | _, [] => []
  | url, p :: ps => url :: chainUrls next (next p) ps

/-- The cursor left after walking a chain from `url`: `url` itself when no
page was walked, else the `next_url` of the last page. -/
def chainEnd {π : Type} (next : π → String) : String → List π → String
  | url, [] => url
  | _, p :: ps => chainEnd next (next p) ps

/-- The hydrated apps of a list of pages: page by page, item by item. -/
def hydratedApps (c : Client) (pages : List AppResponse) : List App :=
  pages.flatMap (fun p => p.Resources.map (listAppsHydrate c))

/-- The hydrated routes of a list of pages: page by page, item by item. -/
def hydratedRoutes (c : Client) (pages : List RoutesResponse) : List Route :=
  pages.flatMap (fun p => p.Resources.map (fetchRoutesHydrate c))

/-- Whether a given list of pages is served as a chain can be computed. -/
instance instDecidableAppChain (J : Codec) (c : Client) :
    ∀ (pages : List AppResponse) (log : List Request) (url : String),
      Decidable (AppChain J c log url pages)
  | [], _, _ => isTrue trivial
  | p :: ps, log, url =>
    haveI := instDecidableAppChain J c ps (log ++ [c.NewRequest "GET" url]) p.NextUrl
    inferInstanceAs (Decidable (_ ∧ _))

/-- Whether a given list of route pages is served as a chain can be computed. -/
instance instDecidableRouteChain (J : Codec) (c : Client) :
    ∀ (pages : List RoutesResponse) (log : List Request) (url : String),
      Decidable (RouteChain J c log url pages)
  | [], _, _ => isTrue trivial
  | p :: ps, log, url =>
    haveI := instDecidableRouteChain J c ps (log ++ [c.NewRequest "GET" url]) p.NextUrl
    inferInstanceAs (Decidable (_ ∧ _))

/-- The page with its `total_results` and `total_pages` counters blanked. -/
def AppResponse.eraseCounters (p : AppResponse) : AppResponse :=
  { p with Count := 0, Pages := 0 }

/-- The page with its `total_results` and `total_pages` counters blanked. -/
def RoutesResponse.eraseCounters (p : RoutesResponse) : RoutesResponse :=
  { p with Count := 0, Pages := 0 }

/-! ## Sample server

A small concrete server used to evaluate the definitions: the body of each
answer is the requested URL, and the decoder maps a body to the page stored
under it. -/

/-- A sample app envelope: the payload carries its own (different) guid and
timestamps, and nested space and organization envelopes. -/
def sampleApp (guid : String) : AppResource :=
  { Meta := ⟨guid, "2016-06-08T16:41:45Z", "2016-06-09T16:41:45Z"⟩
    Entity :=
      { (default : App) with
        Guid := "payload-guid"
        CreatedAt := "payload-created"
        UpdatedAt := "payload-updated"
        Name := "app-" ++ guid
        SpaceData :=
          { Meta := ⟨"space-" ++ guid, "", ""⟩
            Entity :=
              { Guid := "payload-space"
                OrgData := { Meta := ⟨"org-" ++ guid, "", ""⟩, Entity := ⟨"payload-org"⟩ }
                c := none } } } }

/-- A sample app envelope as the API sends it: identity and timestamps only in
the metadata, none in the entity payload. -/
def bareApp (guid : String) : AppResource :=
  { Meta := ⟨guid, "2016-06-08T16:41:45Z", "2016-06-09T16:41:45Z"⟩
    Entity := { (default : App) with Name := "app-" ++ guid } }

/-- A sample route envelope whose payload carries its own (different) guid. -/
def sampleRoute (guid : String) : RoutesResource :=
  { Meta := ⟨guid⟩, Entity := { (default : Route) with Guid := "payload-guid", Host := guid } }

/-- First of three sample app pages; its counters are deliberately off. -/
def appPage1 : AppResponse :=
  { Count := 1, Pages := 1, NextUrl := "/v2/apps?page=2", Resources := [sampleApp "a1", sampleApp "a2"] }

/-- Second sample app page. -/
def appPage2 : AppResponse :=
  { Count := 5, Pages := 3, NextUrl := "/v2/apps?page=3", Resources := [sampleApp "a3"] }

/-- Third and last sample app page. -/
def appPage3 : AppResponse :=
  { Count := 5, Pages := 3, NextUrl := "", Resources := [sampleApp "a1", sampleApp "a4"] }

/-- First of two sample route pages. -/
def routePage1 : RoutesResponse :=
  { Count := 3, Pages := 2, NextUrl := "/v2/routes?page=2", Resources := [sampleRoute "r1", sampleRoute "r2"] }

/-- Second and last sample route page. -/
def routePage2 : RoutesResponse :=
  { Count := 3, Pages := 2, NextUrl := "", Resources := [sampleRoute "r3"] }

/-- Sample transport: every request succeeds and its body is the URL text. -/
def sampleClient : Client :=
  { ref := 7, DoRequest := fun _ r => .ok ⟨200, .ok r.url⟩ }

/-- Sample decoder: looks the body up among the sample pages. -/
def sampleCodec : Codec :=
  { appResponse := fun body =>
      if body = "/v2/apps?" then .ok appPage1
      else if body = "/v2/apps?page=2" then .ok appPage2
      else if body = "/v2/apps?page=3" then .ok appPage3
      else .error (GoError.base "unexpected end of JSON input")
    appResource := fun body =>
      if body = "/v2/apps/a1?inline-relations-depth=2" then .ok (sampleApp "a1")
      else if body = "/v2/apps/a2?inline-relations-depth=2" then .ok (bareApp "a2")
      else .error (GoError.base "unexpected end of JSON input")
    routesResponse := fun body =>
      if body = "/v2/routes?" then .ok routePage1
      else if body = "/v2/routes?page=2" then .ok routePage2
      else .error (GoError.base "unexpected end of JSON input") }

/-- A page without items that still points to a next page. -/
def sparsePage1 : AppResponse :=
  { Count := 1, Pages := 2, NextUrl := "/v2/apps?page=2", Resources := [] }

/-- The page after `sparsePage1`: one app, no next page. -/
def sparsePage2 : AppResponse :=
  { Count := 1, Pages := 2, NextUrl := "", Resources := [bareApp "a1"] }

/-- Sample decoder serving `sparsePage1` then `sparsePage2`. -/
def sparseCodec : Codec :=
  { appResponse := fun body =>
      if body = "/v2/apps?" then .ok sparsePage1
      else if body = "/v2/apps?page=2" then .ok sparsePage2
      else .error (GoError.base "unexpected end of JSON input")
    appResource := sampleCodec.appResource
    routesResponse := sampleCodec.routesResponse }

/-- Sample decoder for an empty collection: every body is a page with zero
items and an empty `next_url`. -/
def emptyCodec : Codec :=
  { appResponse := fun _ => .ok { Count := 0, Pages := 1, NextUrl := "", Resources := [] }
    appResource := sampleCodec.appResource
    routesResponse := fun _ => .ok { Count := 0, Pages := 1, NextUrl := "", Resources := [] } }

/-- Sample transport on which the request for the second page fails. -/
def flakyClient : Client :=
  { ref := 7
    DoRequest := fun _ r =>
      if r.url = "/v2/apps?page=2" ∨ r.url = "/v2/routes?page=2" then
        .error (GoError.base "connection reset by peer")
      else .ok ⟨200, .ok r.url⟩ }

/-- Sample decoder serving the sample pages with other counters. -/
def recountedCodec : Codec :=
  { appResponse := fun body =>
      (sampleCodec.appResponse body).map (fun p => { p with Count := p.Count + 40, Pages := 9 })
    appResource := sampleCodec.appResource
    routesResponse := fun body =>
      (sampleCodec.routesResponse body).map (fun p => { p with Count := 0, Pages := p.Pages + 1 }) }

/-- What `listApps` hands back on the three sample pages without a bound. -/
def sampleAppsFetched : Fetched App :=
  ⟨some (hydratedApps sampleClient [appPage1, appPage2, appPage3]), none,
    [⟨"GET", "/v2/apps?"⟩, ⟨"GET", "/v2/apps?page=2"⟩, ⟨"GET", "/v2/apps?page=3"⟩]⟩

/-- What `fetchRoutes` hands back on the two sample route pages. -/
def sampleRoutesFetched : Fetched Route :=
  ⟨some (hydratedRoutes sampleClient [routePage1, routePage2]), none,
    [⟨"GET", "/v2/routes?"⟩, ⟨"GET", "/v2/routes?page=2"⟩]⟩

/-! ## Timestamps (`apps.go`)

`strconv.ParseFloat`, `strconv.Unquote` and `time.Parse` are library
functions; they are taken as parameters (`Lib`). A `float64` is kept as its
exact value, so that the conversion `int64(timeFlt)` can be stated. -/

/-- Modelled from the spec: a `float64` value, declared by the Go language and
not by this repository. `finite neg mant exp` stands for
`(-1)^neg * mant * 2^exp`; the type is wide enough to hold every `float64`. -/
inductive Float64 where
  | finite (neg : Bool) (mant : Nat) (exp : Int)
  | inf (neg : Bool)
  | nan
  deriving DecidableEq, Repr

/-- The integer part of a finite value, the fraction discarded (toward zero);
`none` for infinities and NaN. -/
def Float64.trunc : Float64 → Option Int
  | .finite neg mant exp =>
    let mag : Nat := if 0 ≤ exp then mant * 2 ^ exp.toNat else mant / 2 ^ (-exp).toNat
    some (if neg then -(mag : Int) else (mag : Int))
  | .inf _ => none
  | .nan => none

/-- Reduction of an integer into the `int64` range, two's complement. -/
def wrapInt64 (n : Int) : Int :=
  (n + 2 ^ 63) % 2 ^ 64 - 2 ^ 63

/-- The Go conversion `int64(f)` of a `float64`: the fraction is discarded;
when the integer part is not an `int64` (or `f` is not finite) the language
leaves the resulting `int64` to the implementation, here `impl f`. -/
def toInt64 (impl : Float64 → Int) (f : Float64) : Int :=
  match f.trunc with
  | some n => if -(2 ^ 63) ≤ n ∧ n < 2 ^ 63 then n else wrapInt64 (impl f)
  | none => wrapInt64 (impl f)

/-- Modelled from the spec: the instant of a `time.Time` (a library type):
seconds since the Unix epoch and nanoseconds within the second. The location
is not part of the instant and is left out. -/
structure Time where
  sec : Int
  nsec : Int
  deriving DecidableEq, Repr

/-- The function `time.Unix(sec, nsec)`: `nsec` outside `[0, 1e9)` is carried
into the seconds. -/
def Time.Unix (sec nsec : Int) : Time :=
  ⟨sec + nsec / 1000000000, nsec % 1000000000⟩

/-- Days from 1970-01-01 to a civil date of the proleptic Gregorian calendar. -/
def daysFromCivil (y m d : Int) : Int :=
  let y1 := if m ≤ 2 then y - 1 else y
  let era := y1 / 400
  let yoe := y1 - era * 400
  let mp := (m + 9) % 12
  let doy := (153 * mp + 2) / 5 + d - 1
  let doe := yoe * 365 + yoe / 4 - yoe / 100 + doy
  era * 146097 + doe - 719468

/-- The instant `time.Date(y, m, d, hh, mm, ss, 0, time.UTC)`. -/
def Time.DateUTC (y m d hh mm ss : Int) : Time :=
  ⟨daysFromCivil y m d * 86400 + hh * 3600 + mm * 60 + ss, 0⟩

/-- The zero `time.Time`: January 1, year 1, 00:00:00 UTC. -/
instance instInhabitedTime : Inhabited Time :=
  ⟨Time.DateUTC 1 1 1 0 0 0⟩

/-- The library functions the timestamp decoders call, and the platform's
result for a float conversion that does not fit. -/
structure Lib where
  ParseFloat : String → Except GoError Float64
  floatToInt64 : Float64 → Int
  Unquote : String → Except GoError String
  Parse : String → String → Except GoError Time

/-- The struct `sinceTime`, which embeds a `time.Time`. -/
structure sinceTime where
  Time : Time
  deriving DecidableEq, Repr, Inhabited

/-- The method `(*sinceTime).UnmarshalJSON`: the receiver before the call is
`s`, the result is the receiver after the call and the returned error. -/
def sinceTime.UnmarshalJSON (L : Lib) (s : sinceTime) (b : String) : sinceTime × Option GoError :=
  match L.ParseFloat b with
  | .error err => (s, some err)
  | .ok timeFlt =>
    let time := Time.Unix (toInt64 L.floatToInt64 timeFlt) 0
    (⟨time⟩, none)

/-- The struct `statTime`, which embeds a `time.Time`. -/
structure statTime where
  Time : Time
  deriving DecidableEq, Repr, Inhabited

/-- The constant `time.RFC3339`. -/
def RFC3339 : String := "2006-01-02T15:04:05Z07:00"

/-- The constant `time.RFC3339Nano`. -/
def RFC3339Nano : String := "2006-01-02T15:04:05.999999999Z07:00"

/-- The array `possibleFormats` of `(*statTime).UnmarshalJSON`. -/
def possibleFormats : List String :=
  [RFC3339, RFC3339Nano, "2006-01-02 15:04:05 -0700", "2006-01-02 15:04:05 MST"]

/-- The error built by `fmt.Errorf` at the end of `(*statTime).UnmarshalJSON`:
`%s` prints the string, `%v` prints the array as its elements between square
brackets, separated by blanks. -/
def statTimeError (timeString : String) : GoError :=
  GoError.base (timeString ++ " was not in any of the expected Date Formats [" ++
    " ".intercalate possibleFormats ++ "]")

/-- The loop `for _, possibleFormat := range possibleFormats` of
`(*statTime).UnmarshalJSON` over the formats still to try, and the final
`return` after it. -/
def statTimeRange (L : Lib) (s : statTime) (timeString : String) :
    List String → statTime × Option GoError
  | [] => (s, some (statTimeError timeString))
  | possibleFormat :: rest =>
    match L.Parse possibleFormat timeString with
    | .ok value => (⟨value⟩, none)
    | .error _ => statTimeRange L s timeString rest

/-- The method `(*statTime).UnmarshalJSON`: the receiver before the call is
`s`, the result is the receiver after the call and the returned error. -/
def statTime.UnmarshalJSON (L : Lib) (s : statTime) (b : String) : statTime × Option GoError :=
  match L.Unquote b with
  | .error err => (s, some err)
  | .ok timeString => statTimeRange L s timeString possibleFormats

/-- Sample library: parses and unquotes a few literals the way Go does, and
converts out-of-range floats like amd64 (to the least `int64`). -/
def sampleLib : Lib :=
  { ParseFloat := fun b =>
      if b = "1600000000" then .ok (Float64.finite false 1600000000 0)
      else if b = "1600000000.9" then .ok (Float64.finite false 6710886403774874 (-22))
      else if b = "-1.5" then .ok (Float64.finite true 3 (-1))
      else if b = "1e19" then .ok (Float64.finite false 19073486328125 19)
      else if b = "NaN" then .ok Float64.nan
      else .error (GoError.base "strconv.ParseFloat: invalid syntax")
    floatToInt64 := fun _ => -(2 ^ 63)
    Unquote := fun b =>
      if b = "\"2015-07-01 10:00:00 -0700\"" then .ok "2015-07-01 10:00:00 -0700"
      else if b = "\"not-a-time\"" then .ok "not-a-time"
      else .error (GoError.base "invalid syntax")
    Parse := fun layout value =>
      if layout = "2006-01-02 15:04:05 -0700" ∧ value = "2015-07-01 10:00:00 -0700" then
        .ok (Time.DateUTC 2015 7 1 17 0 0)
      else .error (GoError.base "parsing time: cannot parse") }

/-- The exact value of a finite `float64`. -/
def Float64.toRat : Float64 → Option ℚ
  | .finite neg mant exp => some ((if neg then -1 else 1) * (mant : ℚ) * (2 : ℚ) ^ exp)
  | .inf _ => none
  | .nan => none

/-- Truncation toward zero of a rational number. -/
def truncRat (x : ℚ) : Int :=
  if 0 ≤ x then ⌊x⌋ else ⌈x⌉

/-! ## One-shot calls (`apps.go`) -/

/-- The anonymous struct of the field `DropletRequest.Data`. -/
structure DropletData where
  GUID : String
  deriving DecidableEq, Repr, Inhabited

/-- The struct `DropletRequest`. -/
structure DropletRequest where
  Data : DropletData
  deriving DecidableEq, Repr, Inhabited

/-- The anonymous struct of `V3DockerAppResponse.Lifecycle`; its field `Type`
is named `Type_` here, and its empty struct `Data` is left out. -/
structure V3Lifecycle where
  Type_ : String
  deriving DecidableEq, Repr, Inhabited

/-- The struct `V3DockerAppResponse`. -/
structure V3DockerAppResponse where
  GUID : String
  CreatedAt : String
  UpdatedAt : String
  Name : String
  State : String
  Lifecycle : V3Lifecycle
  deriving DecidableEq, Repr, Inhabited

/-- The request value built by `c.NewRequestWithBody(method, url, body)`. -/
structure RequestWithBody where
  method : String
  url : String
  body : String
  deriving DecidableEq, Repr

/-- What `AssignDropletToApp` takes from outside these files:
`json.NewEncoder(b).Encode(droplet)` as the text it writes to the buffer,
`c.DoRequest(r)` on a request that carries a body, and
`json.Unmarshal(resBody, &app)` into the zero-valued `app`. -/
structure V3Env where
  encodeDroplet : DropletRequest → String
  DoRequest : RequestWithBody → Except GoError Response
  unmarshalApp : String → Except GoError V3DockerAppResponse

/-- The method `AssignDropletToApp`. Its two `fmt.Println` calls only write to
standard output and are left out. -/
def AssignDropletToApp (E : V3Env) (appGUID dropletGUID : String) :
    V3DockerAppResponse × Option GoError :=
  let droplet : DropletRequest := { Data := { GUID := dropletGUID } }
  let b := E.encodeDroplet droplet
  let r : RequestWithBody :=
    ⟨"PATCH", "/v3/apps/" ++ appGUID ++ "/relationships/current_droplet", b⟩
  match E.DoRequest r with
  | .error err => (default, errorsWrap (some err) "Error requesting droplet")
  | .ok resp =>
    match resp.Body with
    | .error err => (default, errorsWrap (some err) "Error reading app response")
    | .ok resBody =>
      match E.unmarshalApp resBody with
      | .error err => (default, errorsWrap (some err) "Error unmarshalling app response")
      | .ok _app => (default, none)

/-- The method `KillAppInstance`. After the first check the variable `err` is
nil, and it is that `err` which the status check wraps; `errors.Wrapf` with
its two `%s` arguments is `errors.Wrap` of the formatted message. -/
def KillAppInstance (c : Client) (guid index : String) : Option GoError :=
  let requestURL := "/v2/apps/" ++ guid ++ "/instances/" ++ index
  let r := c.NewRequest "DELETE" requestURL
  match c.DoRequest [] r with
  | .error err =>
    errorsWrap (some err) ("Error stopping app " ++ guid ++ " at index " ++ index)
  | .ok resp =>
    let err : Option GoError := none
    if resp.StatusCode ≠ 204 then
      errorsWrap err ("Error stopping app " ++ guid ++ " at index " ++ index)
    else none

/-- Sample droplet assignment: the server answers 200 with a body that decodes
to a filled-in app. -/
def sampleV3Env : V3Env :=
  { encodeDroplet := fun d => "droplet " ++ d.Data.GUID
    DoRequest := fun r => .ok ⟨200, .ok r.url⟩
    unmarshalApp := fun _ =>
      .ok { GUID := "a1", CreatedAt := "2016-06-08T16:41:45Z", UpdatedAt := "2016-06-09T16:41:45Z",
            Name := "app-a1", State := "STOPPED", Lifecycle := ⟨"docker"⟩ } }

/-- Sample transport answering every request with the given status code. -/
def statusClient (status : Int) : Client :=
  { ref := 7, DoRequest := fun _ _ => .ok ⟨status, .ok ""⟩ }

/-! ## Auxiliary lemmas -/

theorem foldl_goAppend_some {α β : Type} (f : β → α) (rs : List β) (acc : List α) :
    rs.foldl (fun s r => goAppend s (f r)) (some acc) = some (acc ++ rs.map f) := by
  induction rs generalizing acc with
  | nil => simp
  | cons r rs ih =>
    rw [List.foldl_cons]
    show rs.foldl _ (some (acc ++ [f r])) = _
    rw [ih]
    simp

theorem foldl_goAppend_none {α β : Type} (f : β → α) (rs : List β) :
    rs.foldl (fun s r => goAppend s (f r)) none =
      if rs.isEmpty then none else some (rs.map f) := by
  cases rs with
  | nil => simp
  | cons r rs =>
    rw [List.foldl_cons]
    show rs.foldl _ (some ([] ++ [f r])) = _
    rw [foldl_goAppend_some]
    simp

theorem chainUrls_eq {π : Type} (next : π → String) (url : String) (pages : List π)
    (hne : pages ≠ []) : chainUrls next url pages = url :: pages.dropLast.map next := by
  induction pages generalizing url with
  | nil => exact absurd rfl hne
  | cons p ps ih =>
    cases ps with
    | nil => simp [chainUrls]
    | cons q qs =>
      rw [chainUrls, ih (next p) (by simp)]
      simp

theorem chainUrls_length {π : Type} (next : π → String) (url : String) (pages : List π) :
    (chainUrls next url pages).length = pages.length := by
  induction pages generalizing url with
  | nil => rfl
  | cons p ps ih => simp [chainUrls, ih]

/-- One iteration of the `listApps` loop, in terms of `appsRound`. -/
theorem listAppsLoop_round (J : Codec) (c : Client) (tp : Int) (fuel : Nat) (url : String)
    (pg : Int) (apps : Option (List App)) (log : List Request) :
    listAppsLoop J c tp (fuel + 1) url pg apps log =
      match appsRound J c log url with
      | .error e => some ⟨none, some e, log ++ [c.NewRequest "GET" url]⟩
      | .ok p =>
        if p.NextUrl = "" then
          some ⟨p.Resources.foldl (fun acc app => goAppend acc (listAppsHydrate c app)) apps, none,
            log ++ [c.NewRequest "GET" url]⟩
        else if tp > 0 ∧ pg + 1 ≥ tp then
          some ⟨p.Resources.foldl (fun acc app => goAppend acc (listAppsHydrate c app)) apps, none,
            log ++ [c.NewRequest "GET" url]⟩
        else
          listAppsLoop J c tp fuel p.NextUrl (pg + 1)
            (p.Resources.foldl (fun acc app => goAppend acc (listAppsHydrate c app)) apps)
            (log ++ [c.NewRequest "GET" url]) := by
  rw [listAppsLoop]
  unfold appsRound
  cases hd : c.DoRequest log (c.NewRequest "GET" url) with
  | error e => simp only [errorsWrap]
  | ok resp =>
    cases hb : resp.Body with
    | error e => simp only [hb, errorsWrap]
    | ok body =>
      cases hj : J.appResponse body with
      | error e => simp only [hb, hj, errorsWrap]
      | ok q => simp only [hb, hj]

/-- One iteration of the `listApps` loop on a page that decodes. -/
theorem listAppsLoop_page (J : Codec) (c : Client) (tp : Int) (fuel : Nat) (url : String)
    (pg : Int) (apps : Option (List App)) (log : List Request) (p : AppResponse)
    (h : appsPage J c log url = some p) :
    listAppsLoop J c tp (fuel + 1) url pg apps log =
      if p.NextUrl = "" then
        some ⟨p.Resources.foldl (fun acc app => goAppend acc (listAppsHydrate c app)) apps, none,
          log ++ [c.NewRequest "GET" url]⟩
      else if tp > 0 ∧ pg + 1 ≥ tp then
        some ⟨p.Resources.foldl (fun acc app => goAppend acc (listAppsHydrate c app)) apps, none,
          log ++ [c.NewRequest "GET" url]⟩
      else
        listAppsLoop J c tp fuel p.NextUrl (pg + 1)
          (p.Resources.foldl (fun acc app => goAppend acc (listAppsHydrate c app)) apps)
          (log ++ [c.NewRequest "GET" url]) := by
  unfold appsPage at h
  rw [listAppsLoop_round]
  cases hr : appsRound J c log url with
  | error e => simp [hr] at h
  | ok q =>
    simp only [hr, Option.some.injEq] at h
    subst h
    rfl

/-- Walking a served chain: the `listApps` loop merges every page of the chain
and leaves at the last one, either on its empty `next_url` or on the bound. -/
theorem listAppsLoop_chain (J : Codec) (c : Client) (tp : Int) :
    ∀ (pages : List AppResponse) (fuel : Nat) (url : String) (pg : Int) (acc : List App)
      (log : List Request),
      pages ≠ [] → pages.length ≤ fuel → AppChain J c log url pages →
      (∀ p ∈ pages.dropLast, p.NextUrl ≠ "") →
      (tp ≤ 0 ∨ pg + pages.length - 1 < tp) →
      (pages.getLast?.map AppResponse.NextUrl = some "" ∨ (0 < tp ∧ tp ≤ pg + pages.length)) →
      listAppsLoop J c tp fuel url pg (some acc) log =
        some ⟨some (acc ++ hydratedApps c pages), none,
          log ++ (chainUrls AppResponse.NextUrl url pages).map (c.NewRequest "GET")⟩ := by
  intro pages
  induction pages with
  | nil => intro _ _ _ _ _ h; exact absurd rfl h
  | cons p ps ih =>
    intro fuel url pg acc log _ hfuel hchain hopen hbound hstop
    obtain ⟨hp, hrest⟩ := hchain
    cases fuel with
    | zero => simp at hfuel
    | succ fuel =>
      rw [listAppsLoop_page J c tp fuel url pg (some acc) log p hp, foldl_goAppend_some]
      cases ps with
      | nil =>
        by_cases hnext : p.NextUrl = ""
        · simp [hnext, hydratedApps, chainUrls]
        · have hb : tp > 0 ∧ pg + 1 ≥ tp := by
            rcases hstop with h | h
            · simp at h; exact absurd h hnext
            · simpa using h
          simp [hnext, hb, hydratedApps, chainUrls]
      | cons q qs =>
        have hnext : p.NextUrl ≠ "" := hopen p (by simp)
        have hb : ¬ (tp > 0 ∧ pg + 1 ≥ tp) := by
          simp only [List.length_cons] at hbound
          push_cast at hbound
          omega
        rw [if_neg hnext, if_neg hb]
        rw [ih fuel p.NextUrl (pg + 1) (acc ++ p.Resources.map (listAppsHydrate c))
          (log ++ [c.NewRequest "GET" url]) (by simp) (by simpa using hfuel) hrest
          (fun r hr => hopen r (by simp [List.dropLast_cons₂]; exact Or.inr (by simpa using hr)))
          (by simp only [List.length_cons] at hbound ⊢; push_cast at hbound ⊢; omega)
          (by
            rcases hstop with h | h
            · left; simpa using h
            · right; simp only [List.length_cons] at h ⊢; push_cast at h ⊢; omega)]
        simp [hydratedApps, chainUrls]

theorem appChain_take (J : Codec) (c : Client) :
    ∀ (pages : List AppResponse) (k : Nat) (log : List Request) (url : String),
      AppChain J c log url pages → AppChain J c log url (pages.take k) := by
  intro pages
  induction pages with
  | nil => intro k log url h; simpa using h
  | cons p ps ih =>
    intro k log url h
    cases k with
    | zero => simp [AppChain]
    | succ k => exact ⟨h.1, ih k _ _ h.2⟩

theorem mem_dropLast_of_mem_dropLast_take {α : Type} :
    ∀ (l : List α) (k : Nat) (x : α), x ∈ (l.take k).dropLast → x ∈ l.dropLast := by
  intro l
  induction l with
  | nil => intro k x h; simp at h
  | cons a t ih =>
    intro k x h
    cases k with
    | zero => simp at h
    | succ k =>
      cases t with
      | nil => simp at h
      | cons b t =>
        cases k with
        | zero => simp at h
        | succ k =>
          rw [List.take_succ_cons, List.take_succ_cons, List.dropLast_cons₂] at h
          rw [List.dropLast_cons₂]
          rcases List.mem_cons.mp h with h | h
          · exact List.mem_cons.mpr (Or.inl h)
          · exact List.mem_cons.mpr (Or.inr (ih (k + 1) x (by rw [List.take_succ_cons]; exact h)))

/-- One iteration of the `listApps` loop whose request fails in transport. -/
theorem listAppsLoop_transport_error (J : Codec) (c : Client) (tp : Int) (fuel : Nat)
    (url : String) (pg : Int) (apps : Option (List App)) (log : List Request) (e : GoError)
    (h : c.DoRequest log (c.NewRequest "GET" url) = .error e) :
    listAppsLoop J c tp (fuel + 1) url pg apps log =
      some ⟨none, some (GoError.wrapped e "Error requesting apps"),
        log ++ [c.NewRequest "GET" url]⟩ := by
  rw [listAppsLoop]
  simp only [h, errorsWrap]

/-- Walking a served prefix: while pages carry a `next_url` and the bound is
not reached, the `listApps` loop merges them and moves on to the next cursor. -/
theorem listAppsLoop_advance (J : Codec) (c : Client) (tp : Int) :
    ∀ (pages : List AppResponse) (fuel : Nat) (url : String) (pg : Int) (acc : List App)
      (log : List Request),
      AppChain J c log url pages →
      (∀ p ∈ pages, p.NextUrl ≠ "") →
      (tp ≤ 0 ∨ pg + pages.length < tp) →
      listAppsLoop J c tp (pages.length + fuel) url pg (some acc) log =
        listAppsLoop J c tp fuel (chainEnd AppResponse.NextUrl url pages) (pg + pages.length)
          (some (acc ++ hydratedApps c pages))
          (log ++ (chainUrls AppResponse.NextUrl url pages).map (c.NewRequest "GET")) := by
  intro pages
  induction pages with
  | nil => intro fuel url pg acc log _ _ _; simp [chainEnd, chainUrls, hydratedApps]
  | cons p ps ih =>
    intro fuel url pg acc log hchain hopen hbound
    obtain ⟨hp, hrest⟩ := hchain
    have hnext : p.NextUrl ≠ "" := hopen p (by simp)
    have hb : ¬ (tp > 0 ∧ pg + 1 ≥ tp) := by
      simp only [List.length_cons] at hbound
      push_cast at hbound
      omega
    have hfuel : (p :: ps).length + fuel = (ps.length + fuel) + 1 := by
      simp only [List.length_cons]; omega
    rw [hfuel, listAppsLoop_page J c tp _ url pg (some acc) log p hp, foldl_goAppend_some,
      if_neg hnext, if_neg hb,
      ih fuel p.NextUrl (pg + 1) _ _ hrest (fun r hr => hopen r (by simp [hr]))
        (by simp only [List.length_cons] at hbound; push_cast at hbound; omega)]
    simp only [chainEnd, chainUrls, hydratedApps, List.flatMap_cons, List.length_cons,
      List.map_cons, List.append_assoc, List.singleton_append]
    push_cast
    rw [show pg + 1 + (ps.length : Int) = pg + ((ps.length : Int) + 1) by ring]


/-- One iteration of the `fetchRoutes` loop on a page that decodes. -/
theorem fetchRoutesLoop_page (J : Codec) (c : Client) (fuel : Nat) (url : String)
    (routes : Option (List Route)) (log : List Request) (p : RoutesResponse)
    (h : routesPage J c log url = some p) :
    fetchRoutesLoop J c (fuel + 1) url routes log =
      if p.NextUrl = "" then
        some ⟨(p.Resources.map (fetchRoutesHydrate c)).foldl goAppend routes, none,
          log ++ [c.NewRequest "GET" url]⟩
      else
        fetchRoutesLoop J c fuel p.NextUrl
          ((p.Resources.map (fetchRoutesHydrate c)).foldl goAppend routes)
          (log ++ [c.NewRequest "GET" url]) := by
  unfold routesPage at h
  rw [fetchRoutesLoop]
  cases he : (getRoutesResponse J c log url).2 with
  | some e => simp [he] at h
  | none =>
    simp only [he, Option.some.injEq] at h
    subst h
    simp only [he, List.foldl_map]

/-- One iteration of the `fetchRoutes` loop when `getRoutesResponse` fails. -/
theorem fetchRoutesLoop_error (J : Codec) (c : Client) (fuel : Nat) (url : String)
    (routes : Option (List Route)) (log : List Request) (e : GoError)
    (h : (getRoutesResponse J c log url).2 = some e) :
    fetchRoutesLoop J c (fuel + 1) url routes log =
      some ⟨some [], some e, log ++ [c.NewRequest "GET" url]⟩ := by
  rw [fetchRoutesLoop]
  simp only [h]

theorem getRoutesResponse_transport_error (J : Codec) (c : Client) (log : List Request)
    (url : String) (e : GoError) (h : c.DoRequest log (c.NewRequest "GET" url) = .error e) :
    (getRoutesResponse J c log url).2 = some (GoError.wrapped e "Error requesting routes") := by
  simp only [getRoutesResponse, h, errorsWrap]

/-- Walking a served prefix of route pages that all carry a `next_url`. -/
theorem fetchRoutesLoop_advance (J : Codec) (c : Client) :
    ∀ (pages : List RoutesResponse) (fuel : Nat) (url : String) (acc : Option (List Route))
      (log : List Request),
      RouteChain J c log url pages →
      (∀ p ∈ pages, p.NextUrl ≠ "") →
      fetchRoutesLoop J c (pages.length + fuel) url acc log =
        fetchRoutesLoop J c fuel (chainEnd RoutesResponse.NextUrl url pages)
          ((hydratedRoutes c pages).foldl goAppend acc)
          (log ++ (chainUrls RoutesResponse.NextUrl url pages).map (c.NewRequest "GET")) := by
  intro pages
  induction pages with
  | nil => intro fuel url acc log _ _; simp [chainEnd, chainUrls, hydratedRoutes]
  | cons p ps ih =>
    intro fuel url acc log hchain hopen
    obtain ⟨hp, hrest⟩ := hchain
    have hnext : p.NextUrl ≠ "" := hopen p (by simp)
    have hfuel : (p :: ps).length + fuel = (ps.length + fuel) + 1 := by
      simp only [List.length_cons]; omega
    rw [hfuel, fetchRoutesLoop_page J c _ url acc log p hp, if_neg hnext,
      ih fuel p.NextUrl _ _ hrest (fun r hr => hopen r (by simp [hr]))]
    simp only [chainEnd, chainUrls, hydratedRoutes, List.flatMap_cons, List.foldl_append,
      List.map_cons, List.append_assoc, List.singleton_append]

/-- Walking a served chain of route pages to its last page. -/
theorem fetchRoutesLoop_chain (J : Codec) (c : Client) :
    ∀ (pages : List RoutesResponse) (fuel : Nat) (url : String) (acc : Option (List Route))
      (log : List Request),
      pages ≠ [] → pages.length ≤ fuel → RouteChain J c log url pages →
      (∀ p ∈ pages.dropLast, p.NextUrl ≠ "") →
      pages.getLast?.map RoutesResponse.NextUrl = some "" →
      fetchRoutesLoop J c fuel url acc log =
        some ⟨(hydratedRoutes c pages).foldl goAppend acc, none,
          log ++ (chainUrls RoutesResponse.NextUrl url pages).map (c.NewRequest "GET")⟩ := by
  intro pages
  induction pages with
  | nil => intro _ _ _ _ h; exact absurd rfl h
  | cons p ps ih =>
    intro fuel url acc log _ hfuel hchain hopen hlast
    obtain ⟨hp, hrest⟩ := hchain
    cases fuel with
    | zero => simp at hfuel
    | succ fuel =>
      rw [fetchRoutesLoop_page J c fuel url acc log p hp]
      cases ps with
      | nil =>
        have hnext : p.NextUrl = "" := by simpa using hlast
        simp [hnext, hydratedRoutes, chainUrls]
      | cons q qs =>
        have hnext : p.NextUrl ≠ "" := hopen p (by simp)
        rw [if_neg hnext,
          ih fuel p.NextUrl _ (log ++ [c.NewRequest "GET" url]) (by simp)
            (by simpa using hfuel) hrest
            (fun r hr => hopen r (by simp [List.dropLast_cons₂]; exact Or.inr (by simpa using hr)))
            (by simpa using hlast)]
        simp [hydratedRoutes, chainUrls]

/-- Every run of the `listApps` loop that returns a nil error walked a served
chain and left it on an empty `next_url` or on the page bound. -/
theorem listAppsLoop_success (J : Codec) (c : Client) (tp : Int) :
    ∀ (fuel : Nat) (url : String) (pg : Int) (acc : List App) (log : List Request)
      (out : Fetched App),
      (tp ≤ 0 ∨ pg < tp) →
      listAppsLoop J c tp fuel url pg (some acc) log = some out → out.err = none →
      ∃ pages : List AppResponse, pages ≠ [] ∧ pages.length ≤ fuel ∧
        AppChain J c log url pages ∧
        (∀ p ∈ pages.dropLast, p.NextUrl ≠ "") ∧
        (tp ≤ 0 ∨ pg + pages.length - 1 < tp) ∧
        (pages.getLast?.map AppResponse.NextUrl = some "" ∨ (0 < tp ∧ tp ≤ pg + pages.length)) := by
  intro fuel
  induction fuel with
  | zero => intro url pg acc log out _ h; simp [listAppsLoop] at h
  | succ fuel ih =>
    intro url pg acc log out hpg h herr
    cases hpage : appsPage J c log url with
    | none =>
      exfalso
      rw [listAppsLoop_round] at h
      unfold appsPage at hpage
      cases hr : appsRound J c log url with
      | ok q => simp [hr] at hpage
      | error e =>
        simp only [hr, Option.some.injEq] at h
        subst h; simp at herr
    | some p =>
      rw [listAppsLoop_page J c tp fuel url pg (some acc) log p hpage, foldl_goAppend_some] at h
      by_cases hnext : p.NextUrl = ""
      · exact ⟨[p], by simp, by simp, ⟨hpage, trivial⟩, by simp, by simp; omega, Or.inl (by simpa using hnext)⟩
      · rw [if_neg hnext] at h
        by_cases hb : tp > 0 ∧ pg + 1 ≥ tp
        · exact ⟨[p], by simp, by simp, ⟨hpage, trivial⟩, by simp, by simp; omega,
            Or.inr (by simpa using hb)⟩
        · rw [if_neg hb] at h
          obtain ⟨ps, hne, hlen, hchain, hopen, hbound, hstop⟩ :=
            ih _ _ _ _ out (by omega) h herr
          refine ⟨p :: ps, by simp, by simpa using hlen, ⟨hpage, hchain⟩, ?_, ?_, ?_⟩
          · intro r hr
            cases ps with
            | nil => exact absurd rfl hne
            | cons q qs =>
              rw [List.dropLast_cons₂] at hr
              rcases List.mem_cons.mp hr with hr | hr
              · rw [hr]; exact hnext
              · exact hopen r hr
          · simp only [List.length_cons]; push_cast; omega
          · cases ps with
            | nil => exact absurd rfl hne
            | cons q qs =>
              rw [List.getLast?_cons_cons]
              simp only [List.length_cons] at hstop ⊢
              push_cast at hstop ⊢
              rcases hstop with h1 | h1
              · exact Or.inl h1
              · exact Or.inr (by omega)

/-- Every run of the `fetchRoutes` loop that returns a nil error walked a
served chain and left it on an empty `next_url`. -/
theorem fetchRoutesLoop_success (J : Codec) (c : Client) :
    ∀ (fuel : Nat) (url : String) (acc : Option (List Route)) (log : List Request)
      (out : Fetched Route),
      fetchRoutesLoop J c fuel url acc log = some out → out.err = none →
      ∃ pages : List RoutesResponse, pages ≠ [] ∧ pages.length ≤ fuel ∧
        RouteChain J c log url pages ∧
        (∀ p ∈ pages.dropLast, p.NextUrl ≠ "") ∧
        pages.getLast?.map RoutesResponse.NextUrl = some "" := by
  intro fuel
  induction fuel with
  | zero => intro url acc log out h; simp [fetchRoutesLoop] at h
  | succ fuel ih =>
    intro url acc log out h herr
    cases hpage : routesPage J c log url with
    | none =>
      exfalso
      unfold routesPage at hpage
      cases he : (getRoutesResponse J c log url).2 with
      | none => simp [he] at hpage
      | some e =>
        rw [fetchRoutesLoop_error J c fuel url acc log e he] at h
        simp only [Option.some.injEq] at h
        subst h; simp at herr
    | some p =>
      rw [fetchRoutesLoop_page J c fuel url acc log p hpage] at h
      by_cases hnext : p.NextUrl = ""
      · exact ⟨[p], by simp, by simp, ⟨hpage, trivial⟩, by simp, by simpa using hnext⟩
      · rw [if_neg hnext] at h
        obtain ⟨ps, hne, hlen, hchain, hopen, hlast⟩ := ih _ _ _ out h herr
        refine ⟨p :: ps, by simp, by simpa using hlen, ⟨hpage, hchain⟩, ?_, ?_⟩
        · intro r hr
          cases ps with
          | nil => exact absurd rfl hne
          | cons q qs =>
            rw [List.dropLast_cons₂] at hr
            rcases List.mem_cons.mp hr with hr | hr
            · rw [hr]; exact hnext
            · exact hopen r hr
        · cases ps with
          | nil => exact absurd rfl hne
          | cons q qs => rw [List.getLast?_cons_cons]; exact hlast


/-- A `listApps` call that returns a nil error: the pages it walked, why it
left, and what it returns. -/
theorem listApps_success (J : Codec) (c : Client) (fuel : Nat) (url : String) (tp : Int)
    (out : Fetched App) (h : listApps J c fuel url tp = some out) (herr : out.err = none) :
    ∃ pages : List AppResponse, pages ≠ [] ∧ pages.length ≤ fuel ∧ AppChain J c [] url pages ∧
      (∀ p ∈ pages.dropLast, p.NextUrl ≠ "") ∧
      (tp ≤ 0 ∨ (pages.length : Int) ≤ tp) ∧
      (pages.getLast?.map AppResponse.NextUrl = some "" ∨ (0 < tp ∧ (pages.length : Int) = tp)) ∧
      out = ⟨some (hydratedApps c pages), none,
        (chainUrls AppResponse.NextUrl url pages).map (c.NewRequest "GET")⟩ := by
  obtain ⟨pages, hne, hlen, hchain, hopen, hbound, hstop⟩ :=
    listAppsLoop_success J c tp fuel url 0 [] [] out (by omega) h herr
  have key := listAppsLoop_chain J c tp pages fuel url 0 [] [] hne hlen hchain hopen hbound hstop
  rw [listApps] at h
  rw [key] at h
  refine ⟨pages, hne, hlen, hchain, hopen, by omega, ?_, ?_⟩
  · rcases hstop with h1 | h1
    · exact Or.inl h1
    · exact Or.inr (by omega)
  · simpa using h.symm

/-- A `fetchRoutes` call that returns a nil error: the pages it walked and
what it returns. -/
theorem fetchRoutes_success (J : Codec) (c : Client) (fuel : Nat) (url : String)
    (out : Fetched Route) (h : fetchRoutes J c fuel url = some out) (herr : out.err = none) :
    ∃ pages : List RoutesResponse, pages ≠ [] ∧ pages.length ≤ fuel ∧
      RouteChain J c [] url pages ∧
      (∀ p ∈ pages.dropLast, p.NextUrl ≠ "") ∧
      pages.getLast?.map RoutesResponse.NextUrl = some "" ∧
      out = ⟨(hydratedRoutes c pages).foldl goAppend none, none,
        (chainUrls RoutesResponse.NextUrl url pages).map (c.NewRequest "GET")⟩ := by
  obtain ⟨pages, hne, hlen, hchain, hopen, hlast⟩ :=
    fetchRoutesLoop_success J c fuel url none [] out h herr
  have key := fetchRoutesLoop_chain J c pages fuel url none [] hne hlen hchain hopen hlast
  rw [fetchRoutes] at h
  rw [key] at h
  exact ⟨pages, hne, hlen, hchain, hopen, hlast, by simpa using h.symm⟩

theorem foldl_goAppend_getD {α : Type} (xs : List α) :
    (xs.foldl goAppend none).getD [] = xs := by
  have h := foldl_goAppend_none (fun x : α => x) xs
  simp only [List.map_id_fun, id_eq] at h
  rw [h]
  cases xs <;> simp

/-- Every item returned by a successful `listApps` call is related to the
envelope it was decoded from by any relation the hydration step establishes. -/
theorem listApps_items (J : Codec) (c : Client) (R : AppResource → App → Prop)
    (hR : ∀ env, R env (listAppsHydrate c env)) (fuel : Nat) (url : String) (tp : Int)
    (out : Fetched App) (h : listApps J c fuel url tp = some out) (herr : out.err = none) :
    ∃ pages : List AppResponse, pages ≠ [] ∧ AppChain J c [] url pages ∧
      out.requests.length = pages.length ∧
      List.Forall₂ R (pages.flatMap AppResponse.Resources) (out.result.getD []) := by
  obtain ⟨pages, hne, _, hchain, _, _, _, hout⟩ := listApps_success J c fuel url tp out h herr
  refine ⟨pages, hne, hchain, ?_, ?_⟩
  · rw [hout]; simp [chainUrls_length]
  · rw [hout]
    simp only [Option.getD_some, hydratedApps]
    rw [← List.map_flatMap, List.forall₂_map_right_iff, List.forall₂_same]
    intro env _
    exact hR env

/-- Every item returned by a successful `fetchRoutes` call is related to the
envelope it was decoded from by any relation the hydration step establishes. -/
theorem fetchRoutes_items (J : Codec) (c : Client) (R : RoutesResource → Route → Prop)
    (hR : ∀ env, R env (fetchRoutesHydrate c env)) (fuel : Nat) (url : String)
    (out : Fetched Route) (h : fetchRoutes J c fuel url = some out) (herr : out.err = none) :
    ∃ pages : List RoutesResponse, pages ≠ [] ∧ RouteChain J c [] url pages ∧
      out.requests.length = pages.length ∧
      List.Forall₂ R (pages.flatMap RoutesResponse.Resources) (out.result.getD []) := by
  obtain ⟨pages, hne, _, hchain, _, _, hout⟩ := fetchRoutes_success J c fuel url out h herr
  refine ⟨pages, hne, hchain, ?_, ?_⟩
  · rw [hout]; simp [chainUrls_length]
  · rw [hout]
    simp only [foldl_goAppend_getD, hydratedRoutes]
    rw [← List.map_flatMap, List.forall₂_map_right_iff, List.forall₂_same]
    intro env _
    exact hR env


theorem listAppsHydrate_ref (c1 c2 : Client) (h : c1.ref = c2.ref) :
    listAppsHydrate c1 = listAppsHydrate c2 := by
  funext a
  simp only [listAppsHydrate, h]

theorem fetchRoutesHydrate_ref (c1 c2 : Client) (h : c1.ref = c2.ref) :
    fetchRoutesHydrate c1 = fetchRoutesHydrate c2 := by
  funext a
  simp only [fetchRoutesHydrate, h]

/-- The `listApps` loop reads of a page only `Resources` and `NextUrl`. -/
theorem listAppsLoop_congr (J1 J2 : Codec) (c1 c2 : Client) (tp : Int) (href : c1.ref = c2.ref)
    (happs : ∀ log url,
      (appsRound J1 c1 log url).map AppResponse.eraseCounters =
        (appsRound J2 c2 log url).map AppResponse.eraseCounters) :
    ∀ (fuel : Nat) (url : String) (pg : Int) (apps : Option (List App)) (log : List Request),
      listAppsLoop J1 c1 tp fuel url pg apps log = listAppsLoop J2 c2 tp fuel url pg apps log := by
  intro fuel
  induction fuel with
  | zero => intro url pg apps log; rfl
  | succ fuel ih =>
    intro url pg apps log
    rw [listAppsLoop_round, listAppsLoop_round, listAppsHydrate_ref c1 c2 href]
    have h := happs log url
    have hreq : c1.NewRequest "GET" url = c2.NewRequest "GET" url := rfl
    cases h1 : appsRound J1 c1 log url with
    | error e1 =>
      cases h2 : appsRound J2 c2 log url with
      | error e2 =>
        rw [h1, h2] at h
        simp only [Except.map, Except.error.injEq] at h
        simp only [h, hreq]
      | ok p2 => rw [h1, h2] at h; simp [Except.map] at h
    | ok p1 =>
      cases h2 : appsRound J2 c2 log url with
      | error e2 => rw [h1, h2] at h; simp [Except.map] at h
      | ok p2 =>
        rw [h1, h2] at h
        simp only [Except.map, Except.ok.injEq] at h
        have hn : p1.NextUrl = p2.NextUrl := by
          have hq := congrArg (fun q : AppResponse => q.NextUrl) h
          exact hq
        have hr : p1.Resources = p2.Resources := by
          have hq := congrArg (fun q : AppResponse => q.Resources) h
          exact hq
        simp only [hn, hr, hreq, ih]

/-- The `fetchRoutes` loop reads of a page only `Resources` and `NextUrl`. -/
theorem fetchRoutesLoop_congr (J1 J2 : Codec) (c1 c2 : Client) (href : c1.ref = c2.ref)
    (hroutes : ∀ log url,
      (getRoutesResponse J1 c1 log url).2 = (getRoutesResponse J2 c2 log url).2 ∧
      (getRoutesResponse J1 c1 log url).1.eraseCounters =
        (getRoutesResponse J2 c2 log url).1.eraseCounters) :
    ∀ (fuel : Nat) (url : String) (routes : Option (List Route)) (log : List Request),
      fetchRoutesLoop J1 c1 fuel url routes log = fetchRoutesLoop J2 c2 fuel url routes log := by
  intro fuel
  induction fuel with
  | zero => intro url routes log; rfl
  | succ fuel ih =>
    intro url routes log
    rw [fetchRoutesLoop, fetchRoutesLoop, fetchRoutesHydrate_ref c1 c2 href]
    obtain ⟨he, hp⟩ := hroutes log url
    have hreq : c1.NewRequest "GET" url = c2.NewRequest "GET" url := rfl
    have hn : (getRoutesResponse J1 c1 log url).1.NextUrl =
        (getRoutesResponse J2 c2 log url).1.NextUrl := by
      have hq := congrArg (fun q : RoutesResponse => q.NextUrl) hp
      exact hq
    have hr : (getRoutesResponse J1 c1 log url).1.Resources =
        (getRoutesResponse J2 c2 log url).1.Resources := by
      have hq := congrArg (fun q : RoutesResponse => q.Resources) hp
      exact hq
    simp only [he, hn, hr, hreq, ih]

/-- An empty terminal first page: `listApps` returns its empty, non-nil slice. -/
theorem listApps_empty_first_page (J : Codec) (c : Client) (fuel : Nat) (url : String)
    (tp : Int) (p : AppResponse) (hp : appsPage J c [] url = some p) (hr : p.Resources = [])
    (hn : p.NextUrl = "") :
    listApps J c (fuel + 1) url tp = some ⟨some [], none, [c.NewRequest "GET" url]⟩ := by
  rw [listApps, listAppsLoop_page J c tp fuel url 0 (some []) [] p hp]
  simp [hn, hr]

/-- An empty terminal first page: `fetchRoutes` returns its nil slice. -/
theorem fetchRoutes_empty_first_page (J : Codec) (c : Client) (fuel : Nat) (url : String)
    (p : RoutesResponse) (hp : routesPage J c [] url = some p) (hr : p.Resources = [])
    (hn : p.NextUrl = "") :
    fetchRoutes J c (fuel + 1) url = some ⟨none, none, [c.NewRequest "GET" url]⟩ := by
  rw [fetchRoutes, fetchRoutesLoop_page J c fuel url none [] p hp]
  simp [hn, hr]


/-- A chain that ends within the page bound: `listApps` with `totalPages` at
least the number of pages of the chain returns every page's items. -/
theorem listApps_within_page_bound (J : Codec) (c : Client) (url : String)
    (pages : List AppResponse) (totalPages : Int) (fuel : Nat) (hne : pages ≠ [])
    (hchain : AppChain J c [] url pages) (hopen : ∀ p ∈ pages.dropLast, p.NextUrl ≠ "")
    (hlast : pages.getLast?.map AppResponse.NextUrl = some "")
    (htp : (pages.length : Int) ≤ totalPages) (hfuel : pages.length ≤ fuel) :
    listApps J c fuel url totalPages =
      some ⟨some (hydratedApps c pages), none,
        (chainUrls AppResponse.NextUrl url pages).map (c.NewRequest "GET")⟩ := by
  have key := listAppsLoop_chain J c totalPages pages fuel url 0 [] [] hne hfuel hchain hopen
    (Or.inr (by omega)) (Or.inl hlast)
  simpa [listApps] using key

/-- The format loop returns the value of the first format that parses. -/
theorem statTimeRange_first (L : Lib) (s : statTime) (timeString : String) :
    ∀ (pre : List String) (layout : String) (post : List String) (t : Time),
      (∀ l ∈ pre, ∀ t1, L.Parse l timeString ≠ .ok t1) →
      L.Parse layout timeString = .ok t →
      statTimeRange L s timeString (pre ++ layout :: post) = (⟨t⟩, none) := by
  intro pre
  induction pre with
  | nil =>
    intro layout post t _ h
    simp only [List.nil_append, statTimeRange, h]
  | cons l pre ih =>
    intro layout post t hpre h
    simp only [List.cons_append, statTimeRange]
    cases hl : L.Parse l timeString with
    | ok t1 => exact absurd hl (hpre l (by simp) t1)
    | error e => exact ih layout post t (fun l1 h1 => hpre l1 (by simp [h1])) h

/-- The format loop fails with the final error when no format parses. -/
theorem statTimeRange_none (L : Lib) (s : statTime) (timeString : String) :
    ∀ (formats : List String),
      (∀ l ∈ formats, ∀ t, L.Parse l timeString ≠ .ok t) →
      statTimeRange L s timeString formats = (s, some (statTimeError timeString)) := by
  intro formats
  induction formats with
  | nil => intro _; rfl
  | cons l rest ih =>
    intro h
    simp only [statTimeRange]
    cases hl : L.Parse l timeString with
    | ok t1 => exact absurd hl (h l (by simp) t1)
    | error e => exact ih (fun l1 h1 => h l1 (by simp [h1]))

/-- The format loop returns a nil error exactly when some format parses. -/
theorem statTimeRange_nil_iff (L : Lib) (s : statTime) (timeString : String) :
    ∀ (formats : List String),
      (statTimeRange L s timeString formats).2 = none ↔
        ∃ l ∈ formats, ∃ t, L.Parse l timeString = .ok t := by
  intro formats
  induction formats with
  | nil => simp [statTimeRange]
  | cons l rest ih =>
    simp only [statTimeRange]
    cases hl : L.Parse l timeString with
    | ok t1 => simp [hl]
    | error e =>
      simp only [ih, List.mem_cons]
      constructor
      · rintro ⟨l1, h1, t, ht⟩
        exact ⟨l1, Or.inr h1, t, ht⟩
      · rintro ⟨l1, h1 | h1, t, ht⟩
        · subst h1; rw [hl] at ht; cases ht
        · exact ⟨l1, h1, t, ht⟩

theorem truncRat_of_nonneg (q : ℚ) (h : 0 ≤ q) : truncRat q = ⌊q⌋ := by
  simp [truncRat, h]

theorem truncRat_neg_of_nonneg (q : ℚ) (h : 0 ≤ q) : truncRat (-q) = -⌊q⌋ := by
  unfold truncRat
  split_ifs with h0
  · have hq : q = 0 := by linarith
    subst hq
    simp
  · exact Int.ceil_neg

/-- The magnitude computed by `Float64.trunc` is the floor of the exact
magnitude. -/
theorem floor_mant_mul_two_zpow (mant : ℕ) (exp : ℤ) :
    ⌊(mant : ℚ) * (2 : ℚ) ^ exp⌋ =
      ((if 0 ≤ exp then mant * 2 ^ exp.toNat else mant / 2 ^ (-exp).toNat : ℕ) : ℤ) := by
  split_ifs with h
  · obtain ⟨k, rfl⟩ := Int.eq_ofNat_of_zero_le h
    have hc : (mant : ℚ) * (2 : ℚ) ^ ((k : ℕ) : ℤ) = ((mant * 2 ^ k : ℕ) : ℚ) := by
      rw [zpow_natCast]
      push_cast
      rfl
    rw [hc, Int.floor_natCast]
    simp
  · have hk : exp = -(((-exp).toNat : ℕ) : ℤ) := by omega
    generalize (-exp).toNat = k at hk
    subst hk
    have hc : (mant : ℚ) * (2 : ℚ) ^ (-((k : ℕ) : ℤ)) = (mant : ℚ) / ((2 ^ k : ℕ) : ℚ) := by
      rw [zpow_neg, zpow_natCast, div_eq_mul_inv]
      push_cast
      rfl
    rw [hc, Rat.floor_natCast_div_natCast]
    push_cast
    rfl

/-- The integer part computed by `Float64.trunc` is the truncation toward
zero of the exact value. -/
theorem Float64.trunc_eq_truncRat (f : Float64) (x : ℚ) (h : f.toRat = some x) :
    f.trunc = some (truncRat x) := by
  cases f with
  | inf neg => simp [Float64.toRat] at h
  | nan => simp [Float64.toRat] at h
  | finite neg mant exp =>
    simp only [Float64.toRat, Option.some.injEq] at h
    subst h
    have hnn : (0 : ℚ) ≤ (mant : ℚ) * (2 : ℚ) ^ exp := by positivity
    cases neg with
    | false =>
      simp only [Float64.trunc, Bool.false_eq_true, if_false, one_mul]
      rw [truncRat_of_nonneg _ hnn, floor_mant_mul_two_zpow]
    | true =>
      simp only [Float64.trunc, if_true]
      rw [show (-1 : ℚ) * (mant : ℚ) * (2 : ℚ) ^ exp = -((mant : ℚ) * (2 : ℚ) ^ exp) by ring,
        truncRat_neg_of_nonneg _ hnn, floor_mant_mul_two_zpow]

theorem wrapInt64_range (n : Int) : -(2 ^ 63) ≤ wrapInt64 n ∧ wrapInt64 n < 2 ^ 63 := by
  unfold wrapInt64
  have h1 : 0 ≤ (n + 2 ^ 63) % 2 ^ 64 := Int.emod_nonneg _ (by norm_num)
  have h2 : (n + 2 ^ 63) % 2 ^ 64 < 2 ^ 64 := Int.emod_lt_of_pos _ (by norm_num)
  constructor <;> omega

/-- The result of `int64(f)` is an `int64`, on every implementation. -/
theorem toInt64_range (impl : Float64 → Int) (f : Float64) :
    -(2 ^ 63) ≤ toInt64 impl f ∧ toInt64 impl f < 2 ^ 63 := by
  unfold toInt64
  split
  · split_ifs with h
    · exact h
    · exact wrapInt64_range _
  · exact wrapInt64_range _

/-- The conversion `int64(f)` discards the fraction when the result fits. -/
theorem toInt64_of_fits (impl : Float64 → Int) (f : Float64) (x : ℚ) (h : f.toRat = some x)
    (hlo : -(2 ^ 63) ≤ truncRat x) (hhi : truncRat x < 2 ^ 63) :
    toInt64 impl f = truncRat x := by
  unfold toInt64
  rw [Float64.trunc_eq_truncRat f x h]
  simp only [hlo, hhi, and_self, if_true]

/-! ## Pagination -/

/-- C1: for a chain of N >= 1 decoded pages in which only the last page has an
empty `next_url`, `listApps` with `totalPages <= 0` (and so `ListAppsByQuery`,
which passes -1) returns, with a nil error, the hydrated items of all N pages
concatenated in page order and within-page order, after exactly N requests:
the start URL and then each page's `next_url` but the last. -/
theorem listApps_unbounded_returns_all_pages (J : Codec) (c : Client) (url : String)
    (pages : List AppResponse) (totalPages : Int) (fuel : Nat)
    (hne : pages ≠ [])
    (hchain : AppChain J c [] url pages)
    (hopen : ∀ p ∈ pages.dropLast, p.NextUrl ≠ "")
    (hlast : pages.getLast?.map AppResponse.NextUrl = some "")
    (htp : totalPages ≤ 0)
    (hfuel : pages.length ≤ fuel) :
    (∃ out, listApps J c fuel url totalPages = some out ∧
      out.result = some (pages.flatMap (fun p => p.Resources.map (listAppsHydrate c))) ∧
      out.err = none ∧
      out.requests = (url :: pages.dropLast.map AppResponse.NextUrl).map (c.NewRequest "GET") ∧
      out.requests.length = pages.length) ∧
    (∀ q, url = "/v2/apps?" ++ q → ListAppsByQuery J c fuel q = listApps J c fuel url totalPages) := by
  have key := listAppsLoop_chain J c totalPages pages fuel url 0 [] [] hne hfuel hchain hopen
    (Or.inl htp) (Or.inl hlast)
  have keyNeg := listAppsLoop_chain J c (-1) pages fuel url 0 [] [] hne hfuel hchain hopen
    (Or.inl (by decide)) (Or.inl hlast)
  refine ⟨⟨_, key, ?_, rfl, ?_, ?_⟩, ?_⟩
  · simp [hydratedApps]
  · simp [chainUrls_eq _ _ _ hne]
  · simp [chainUrls_length]
  · intro q hq
    subst hq
    rw [ListAppsByQuery, listApps, listApps, keyNeg, key]

/-- Witness for C1: the three sample pages, fetched without a bound. -/
theorem listApps_unbounded_returns_all_pages_witness :
    (∃ out, listApps sampleCodec sampleClient 3 "/v2/apps?" 0 = some out ∧
      out.result = some ([appPage1, appPage2, appPage3].flatMap
        (fun p => p.Resources.map (listAppsHydrate sampleClient))) ∧
      out.err = none ∧
      out.requests = ("/v2/apps?" :: [appPage1, appPage2, appPage3].dropLast.map
        AppResponse.NextUrl).map (sampleClient.NewRequest "GET") ∧
      out.requests.length = [appPage1, appPage2, appPage3].length) ∧
    ListAppsByQuery sampleCodec sampleClient 3 "" =
      listApps sampleCodec sampleClient 3 "/v2/apps?" 0 :=
  ⟨(listApps_unbounded_returns_all_pages sampleCodec sampleClient "/v2/apps?"
      [appPage1, appPage2, appPage3] 0 3 (by simp) (by decide) (by decide) (by decide)
      (by decide) (by decide)).1,
    (listApps_unbounded_returns_all_pages sampleCodec sampleClient "/v2/apps?"
      [appPage1, appPage2, appPage3] 0 3 (by simp) (by decide) (by decide) (by decide)
      (by decide) (by decide)).2 "" (by decide)⟩

/-- C2: for k >= 1 and a chain of more than k decoded pages, `listApps` with
`totalPages = k` returns, with a nil error, the hydrated items of the first k
pages concatenated in order, after exactly k requests (the start URL and the
`next_url` of pages 1 to k-1; the `next_url` of page k is not requested). With
k = 1 the result is the first page's items only. -/
theorem listApps_page_bound_returns_first_pages (J : Codec) (c : Client) (url : String)
    (pages : List AppResponse) (k : Nat) (fuel : Nat)
    (hk : 1 ≤ k)
    (hlen : k < pages.length)
    (hchain : AppChain J c [] url pages)
    (hopen : ∀ p ∈ pages.dropLast, p.NextUrl ≠ "")
    (hfuel : k ≤ fuel) :
    ∃ out, listApps J c fuel url (k : Int) = some out ∧
      out.result = some ((pages.take k).flatMap (fun p => p.Resources.map (listAppsHydrate c))) ∧
      out.err = none ∧
      out.requests =
        (url :: (pages.take k).dropLast.map AppResponse.NextUrl).map (c.NewRequest "GET") ∧
      out.requests.length = k ∧
      (k = 1 → out.result = some ((pages.head?.map AppResponse.Resources).getD [] |>.map
        (listAppsHydrate c))) := by
  have hne : pages.take k ≠ [] := by
    cases pages with
    | nil => simp at hlen
    | cons p ps =>
      cases k with
      | zero => omega
      | succ k => simp
  have hlk : (pages.take k).length = k := by simp; omega
  have key := listAppsLoop_chain J c (k : Int) (pages.take k) fuel url 0 [] [] hne
    (by omega) (appChain_take J c pages k [] url hchain)
    (fun p hp => hopen p (mem_dropLast_of_mem_dropLast_take pages k p hp))
    (Or.inr (by rw [hlk]; omega)) (Or.inr ⟨by omega, by rw [hlk]; omega⟩)
  refine ⟨_, key, ?_, rfl, ?_, ?_, ?_⟩
  · simp [hydratedApps]
  · simp [chainUrls_eq _ _ _ hne]
  · simp [chainUrls_length]; omega
  · intro h1
    subst h1
    cases pages with
    | nil => simp at hlen
    | cons p ps => simp [hydratedApps]

/-- Witness for C2: the three sample pages, fetched with a bound of two pages. -/
theorem listApps_page_bound_returns_first_pages_witness :
    ∃ out, listApps sampleCodec sampleClient 2 "/v2/apps?" ((2 : Nat) : Int) = some out ∧
      out.result = some (([appPage1, appPage2, appPage3].take 2).flatMap
        (fun p => p.Resources.map (listAppsHydrate sampleClient))) ∧
      out.err = none ∧
      out.requests = ("/v2/apps?" :: ([appPage1, appPage2, appPage3].take 2).dropLast.map
        AppResponse.NextUrl).map (sampleClient.NewRequest "GET") ∧
      out.requests.length = 2 ∧
      (2 = 1 → out.result = some
        (([appPage1, appPage2, appPage3].head?.map AppResponse.Resources).getD [] |>.map
          (listAppsHydrate sampleClient))) :=
  listApps_page_bound_returns_first_pages sampleCodec sampleClient "/v2/apps?"
    [appPage1, appPage2, appPage3] 2 2 (by decide) (by decide) (by decide) (by decide) (by decide)

/-- C3: evaluation of `ListAppsByQueryWithLimits` with `totalPages = 1` on a
chain of two decoded pages ending in an empty `next_url` that holds one app
in total (an empty first page, then the app): the call stops after the first
page and returns no app, while the unbounded call returns the app. -/
theorem ListAppsByQueryWithLimits_omits_app_behind_empty_page :
    AppChain sparseCodec sampleClient [] "/v2/apps?" [sparsePage1, sparsePage2] ∧
    sparsePage1.NextUrl ≠ "" ∧ sparsePage2.NextUrl = "" ∧
    [sparsePage1, sparsePage2].flatMap AppResponse.Resources = [bareApp "a1"] ∧
    (([sparsePage1, sparsePage2].flatMap AppResponse.Resources).length : Int) ≤ 1 ∧
    ListAppsByQueryWithLimits sparseCodec sampleClient 2 "" 1 =
      some ⟨some [], none, [⟨"GET", "/v2/apps?"⟩]⟩ ∧
    ListAppsByQuery sparseCodec sampleClient 2 "" =
      some ⟨some [listAppsHydrate sampleClient (bareApp "a1")], none,
        [⟨"GET", "/v2/apps?"⟩, ⟨"GET", "/v2/apps?page=2"⟩]⟩ := by
  refine ⟨by decide, by decide, rfl, rfl, by decide, by decide, by decide⟩

/-! ## Hydration -/

/-- C4: whenever `listApps` (for any page bound) or `fetchRoutes` returns with
a nil error, the returned entities correspond one to one, in order, to the
envelopes of the pages it decoded (one page per request issued), and each
returned entity's `Guid` is the guid of its envelope's metadata, whatever guid
the decoded entity payload carried. -/
theorem returned_guid_is_envelope_guid (J : Codec) (c : Client) :
    (∀ (fuel : Nat) (url : String) (totalPages : Int) (out : Fetched App),
      listApps J c fuel url totalPages = some out → out.err = none →
      ∃ pages : List AppResponse, pages ≠ [] ∧ AppChain J c [] url pages ∧
        out.requests.length = pages.length ∧
        List.Forall₂ (fun env app => app.Guid = env.Meta.Guid)
          (pages.flatMap AppResponse.Resources) (out.result.getD [])) ∧
    (∀ (fuel : Nat) (url : String) (out : Fetched Route),
      fetchRoutes J c fuel url = some out → out.err = none →
      ∃ pages : List RoutesResponse, pages ≠ [] ∧ RouteChain J c [] url pages ∧
        out.requests.length = pages.length ∧
        List.Forall₂ (fun env route => route.Guid = env.Meta.GUID)
          (pages.flatMap RoutesResponse.Resources) (out.result.getD [])) :=
  ⟨fun fuel url totalPages out h herr =>
      listApps_items J c (fun env app => app.Guid = env.Meta.Guid) (fun _ => rfl)
        fuel url totalPages out h herr,
    fun fuel url out h herr =>
      fetchRoutes_items J c (fun env route => route.Guid = env.Meta.GUID) (fun _ => rfl)
        fuel url out h herr⟩

/-- Witness for C4: the sample app pages and the sample route pages, whose
payloads all carry the guid `payload-guid`. -/
theorem returned_guid_is_envelope_guid_witness :
    (∃ pages : List AppResponse, pages ≠ [] ∧
      AppChain sampleCodec sampleClient [] "/v2/apps?" pages ∧
      sampleAppsFetched.requests.length = pages.length ∧
      List.Forall₂ (fun env app => app.Guid = env.Meta.Guid)
        (pages.flatMap AppResponse.Resources) (sampleAppsFetched.result.getD [])) ∧
    (∃ pages : List RoutesResponse, pages ≠ [] ∧
      RouteChain sampleCodec sampleClient [] "/v2/routes?" pages ∧
      sampleRoutesFetched.requests.length = pages.length ∧
      List.Forall₂ (fun env route => route.Guid = env.Meta.GUID)
        (pages.flatMap RoutesResponse.Resources) (sampleRoutesFetched.result.getD [])) :=
  ⟨(returned_guid_is_envelope_guid sampleCodec sampleClient).1 3 "/v2/apps?" 0
      sampleAppsFetched (by decide) rfl,
    (returned_guid_is_envelope_guid sampleCodec sampleClient).2 2 "/v2/routes?"
      sampleRoutesFetched (by decide) rfl⟩

/-- C5: whenever `listApps` returns with a nil error, each returned app's
`CreatedAt` and `UpdatedAt` are the `created_at` and `updated_at` of its
envelope's metadata, whatever the decoded entity payload carried there. -/
theorem returned_timestamps_are_envelope_timestamps (J : Codec) (c : Client) (fuel : Nat)
    (url : String) (totalPages : Int) (out : Fetched App)
    (h : listApps J c fuel url totalPages = some out) (herr : out.err = none) :
    ∃ pages : List AppResponse, pages ≠ [] ∧ AppChain J c [] url pages ∧
      out.requests.length = pages.length ∧
      List.Forall₂
        (fun env app => app.CreatedAt = env.Meta.CreatedAt ∧ app.UpdatedAt = env.Meta.UpdatedAt)
        (pages.flatMap AppResponse.Resources) (out.result.getD []) :=
  listApps_items J c
    (fun env app => app.CreatedAt = env.Meta.CreatedAt ∧ app.UpdatedAt = env.Meta.UpdatedAt)
    (fun _ => ⟨rfl, rfl⟩) fuel url totalPages out h herr

/-- Witness for C5: the sample app pages, whose payloads carry the timestamps
`payload-created` and `payload-updated`. -/
theorem returned_timestamps_are_envelope_timestamps_witness :
    ∃ pages : List AppResponse, pages ≠ [] ∧
      AppChain sampleCodec sampleClient [] "/v2/apps?" pages ∧
      sampleAppsFetched.requests.length = pages.length ∧
      List.Forall₂
        (fun env app => app.CreatedAt = env.Meta.CreatedAt ∧ app.UpdatedAt = env.Meta.UpdatedAt)
        (pages.flatMap AppResponse.Resources) (sampleAppsFetched.result.getD []) :=
  returned_timestamps_are_envelope_timestamps sampleCodec sampleClient 3 "/v2/apps?" 0
    sampleAppsFetched (by decide) rfl

/-- C6: whenever `listApps` returns with a nil error, each returned app keeps
the nested space and organization envelopes' metadata as decoded, its nested
space entity's `Guid` is the guid of the space envelope's metadata, and the
organization entity nested in that space has the guid of the organization
envelope's metadata, whatever guids the nested payloads carried. -/
theorem returned_nested_guids_are_envelope_guids (J : Codec) (c : Client) (fuel : Nat)
    (url : String) (totalPages : Int) (out : Fetched App)
    (h : listApps J c fuel url totalPages = some out) (herr : out.err = none) :
    ∃ pages : List AppResponse, pages ≠ [] ∧ AppChain J c [] url pages ∧
      out.requests.length = pages.length ∧
      List.Forall₂
        (fun env app =>
          app.SpaceData.Meta = env.Entity.SpaceData.Meta ∧
          app.SpaceData.Entity.OrgData.Meta = env.Entity.SpaceData.Entity.OrgData.Meta ∧
          app.SpaceData.Entity.Guid = app.SpaceData.Meta.Guid ∧
          app.SpaceData.Entity.OrgData.Entity.Guid = app.SpaceData.Entity.OrgData.Meta.Guid)
        (pages.flatMap AppResponse.Resources) (out.result.getD []) :=
  listApps_items J c
    (fun env app =>
      app.SpaceData.Meta = env.Entity.SpaceData.Meta ∧
      app.SpaceData.Entity.OrgData.Meta = env.Entity.SpaceData.Entity.OrgData.Meta ∧
      app.SpaceData.Entity.Guid = app.SpaceData.Meta.Guid ∧
      app.SpaceData.Entity.OrgData.Entity.Guid = app.SpaceData.Entity.OrgData.Meta.Guid)
    (fun _ => ⟨rfl, rfl, rfl, rfl⟩) fuel url totalPages out h herr

/-- Witness for C6: the sample app pages, whose nested payloads carry the
guids `payload-space` and `payload-org`. -/
theorem returned_nested_guids_are_envelope_guids_witness :
    ∃ pages : List AppResponse, pages ≠ [] ∧
      AppChain sampleCodec sampleClient [] "/v2/apps?" pages ∧
      sampleAppsFetched.requests.length = pages.length ∧
      List.Forall₂
        (fun env app =>
          app.SpaceData.Meta = env.Entity.SpaceData.Meta ∧
          app.SpaceData.Entity.OrgData.Meta = env.Entity.SpaceData.Entity.OrgData.Meta ∧
          app.SpaceData.Entity.Guid = app.SpaceData.Meta.Guid ∧
          app.SpaceData.Entity.OrgData.Entity.Guid = app.SpaceData.Entity.OrgData.Meta.Guid)
        (pages.flatMap AppResponse.Resources) (sampleAppsFetched.result.getD []) :=
  returned_nested_guids_are_envelope_guids sampleCodec sampleClient 3 "/v2/apps?" 0
    sampleAppsFetched (by decide) rfl

/-- C7: evaluation of `GetAppByGuid` on two decoded envelopes, one whose
payload carries no identity or timestamps and one whose payload carries its
own: the returned app takes its `Guid` from the envelope metadata, but its
`CreatedAt` and `UpdatedAt` stay those of the payload, not of the metadata, so
the result differs from what `listApps` makes of the same envelope. -/
theorem GetAppByGuid_leaves_payload_timestamps :
    sampleCodec.appResource "/v2/apps/a2?inline-relations-depth=2" = .ok (bareApp "a2") ∧
    (GetAppByGuid sampleCodec sampleClient "a2").2 = none ∧
    (GetAppByGuid sampleCodec sampleClient "a2").1.Guid = (bareApp "a2").Meta.Guid ∧
    (bareApp "a2").Meta.CreatedAt = "2016-06-08T16:41:45Z" ∧
    (bareApp "a2").Meta.UpdatedAt = "2016-06-09T16:41:45Z" ∧
    (GetAppByGuid sampleCodec sampleClient "a2").1.CreatedAt = "" ∧
    (GetAppByGuid sampleCodec sampleClient "a2").1.UpdatedAt = "" ∧
    (listAppsHydrate sampleClient (bareApp "a2")).CreatedAt = "2016-06-08T16:41:45Z" ∧
    (listAppsHydrate sampleClient (bareApp "a2")).UpdatedAt = "2016-06-09T16:41:45Z" ∧
    (GetAppByGuid sampleCodec sampleClient "a2").1 ≠ listAppsHydrate sampleClient (bareApp "a2") ∧
    (GetAppByGuid sampleCodec sampleClient "a1").2 = none ∧
    (GetAppByGuid sampleCodec sampleClient "a1").1.CreatedAt = "payload-created" ∧
    (GetAppByGuid sampleCodec sampleClient "a1").1.UpdatedAt = "payload-updated" ∧
    (sampleApp "a1").Meta.CreatedAt = "2016-06-08T16:41:45Z" := by
  refine ⟨rfl, by decide, by decide, rfl, rfl, by decide, by decide, by decide, by decide,
    by decide, by decide, by decide, by decide, rfl⟩

/-! ## Edge cases and failures -/

/-- C8: evaluation of both fetchers on a first page with zero items and an
empty `next_url`: each issues one request and returns a nil error; `listApps`
(with or without a page bound) returns an empty non-nil slice, `fetchRoutes`
returns the nil slice. -/
theorem fetchRoutes_empty_collection_returns_nil_slice :
    routesPage emptyCodec sampleClient [] "/v2/routes?" =
      some { Count := 0, Pages := 1, NextUrl := "", Resources := [] } ∧
    fetchRoutes emptyCodec sampleClient 1 "/v2/routes?" =
      some ⟨none, none, [⟨"GET", "/v2/routes?"⟩]⟩ ∧
    appsPage emptyCodec sampleClient [] "/v2/apps?" =
      some { Count := 0, Pages := 1, NextUrl := "", Resources := [] } ∧
    listApps emptyCodec sampleClient 1 "/v2/apps?" (-1) =
      some ⟨some [], none, [⟨"GET", "/v2/apps?"⟩]⟩ ∧
    listApps emptyCodec sampleClient 1 "/v2/apps?" 1 =
      some ⟨some [], none, [⟨"GET", "/v2/apps?"⟩]⟩ := by
  refine ⟨by decide, by decide, by decide, by decide, by decide⟩

/-- C9: if, after any number of pages decoded and merged (each carrying a
`next_url`, the page bound of `listApps` not reached), the request for the
next cursor fails in transport with error `e`, then the fetch returns a
non-nil error wrapping `e` and no item at all (`listApps` the nil slice,
`fetchRoutes` an empty slice), and the failing request is the last it issues. -/
theorem transport_failure_returns_error_and_no_items (J : Codec) (c : Client) (e : GoError) :
    (∀ (pages : List AppResponse) (url : String) (totalPages : Int) (fuel : Nat),
      AppChain J c [] url pages →
      (∀ p ∈ pages, p.NextUrl ≠ "") →
      (totalPages ≤ 0 ∨ (pages.length : Int) < totalPages) →
      c.DoRequest ((chainUrls AppResponse.NextUrl url pages).map (c.NewRequest "GET"))
        (c.NewRequest "GET" (chainEnd AppResponse.NextUrl url pages)) = .error e →
      pages.length < fuel →
      ∃ out, listApps J c fuel url totalPages = some out ∧
        out.result = none ∧
        out.err = some (GoError.wrapped e "Error requesting apps") ∧
        out.requests = (chainUrls AppResponse.NextUrl url pages ++
          [chainEnd AppResponse.NextUrl url pages]).map (c.NewRequest "GET")) ∧
    (∀ (pages : List RoutesResponse) (url : String) (fuel : Nat),
      RouteChain J c [] url pages →
      (∀ p ∈ pages, p.NextUrl ≠ "") →
      c.DoRequest ((chainUrls RoutesResponse.NextUrl url pages).map (c.NewRequest "GET"))
        (c.NewRequest "GET" (chainEnd RoutesResponse.NextUrl url pages)) = .error e →
      pages.length < fuel →
      ∃ out, fetchRoutes J c fuel url = some out ∧
        out.result = some [] ∧
        out.err = some (GoError.wrapped e "Error requesting routes") ∧
        out.requests = (chainUrls RoutesResponse.NextUrl url pages ++
          [chainEnd RoutesResponse.NextUrl url pages]).map (c.NewRequest "GET")) := by
  constructor
  · intro pages url totalPages fuel hchain hopen hbound hfail hfuel
    obtain ⟨n, rfl⟩ : ∃ n, fuel = pages.length + (n + 1) := ⟨fuel - pages.length - 1, by omega⟩
    have hadv := listAppsLoop_advance J c totalPages pages (n + 1) url 0 [] [] hchain hopen
      (by omega)
    rw [listApps, hadv, listAppsLoop_transport_error J c totalPages n _ _ _ _ e
      (by simpa using hfail)]
    exact ⟨_, rfl, rfl, rfl, by simp⟩
  · intro pages url fuel hchain hopen hfail hfuel
    obtain ⟨n, rfl⟩ : ∃ n, fuel = pages.length + (n + 1) := ⟨fuel - pages.length - 1, by omega⟩
    have hadv := fetchRoutesLoop_advance J c pages (n + 1) url none [] hchain hopen
    rw [fetchRoutes, hadv, fetchRoutesLoop_error J c n _ _ _ _
      (getRoutesResponse_transport_error J c _ _ e (by simpa using hfail))]
    exact ⟨_, rfl, rfl, rfl, by simp⟩

/-- Witness for C9: on the sample transport that fails on the second page,
after the first sample page was merged. -/
theorem transport_failure_returns_error_and_no_items_witness :
    (∃ out, listApps sampleCodec flakyClient 2 "/v2/apps?" 0 = some out ∧
      out.result = none ∧
      out.err = some (GoError.wrapped (GoError.base "connection reset by peer")
        "Error requesting apps") ∧
      out.requests = (chainUrls AppResponse.NextUrl "/v2/apps?" [appPage1] ++
        [chainEnd AppResponse.NextUrl "/v2/apps?" [appPage1]]).map
          (flakyClient.NewRequest "GET")) ∧
    (∃ out, fetchRoutes sampleCodec flakyClient 2 "/v2/routes?" = some out ∧
      out.result = some [] ∧
      out.err = some (GoError.wrapped (GoError.base "connection reset by peer")
        "Error requesting routes") ∧
      out.requests = (chainUrls RoutesResponse.NextUrl "/v2/routes?" [routePage1] ++
        [chainEnd RoutesResponse.NextUrl "/v2/routes?" [routePage1]]).map
          (flakyClient.NewRequest "GET")) :=
  ⟨(transport_failure_returns_error_and_no_items sampleCodec flakyClient
      (GoError.base "connection reset by peer")).1 [appPage1] "/v2/apps?" 0 2
      (by decide) (by decide) (by decide) rfl (by decide),
    (transport_failure_returns_error_and_no_items sampleCodec flakyClient
      (GoError.base "connection reset by peer")).2 [routePage1] "/v2/routes?" 2
      (by decide) (by decide) rfl (by decide)⟩

/-- C10: two servers whose answers agree at every request on the error or,
for a decoded page, on `resources` and `next_url`, and differ at most in
`total_results` and `total_pages`, make `listApps` (for any page bound) and
`fetchRoutes` return the same slice, the same error and the same requests.
Moreover a call that returns a nil error issued one request per page of a
served chain and left it only at a page with an empty `next_url` or, for
`listApps` with a positive bound, at page number `totalPages`. -/
theorem fetch_independent_of_page_counters (J1 J2 : Codec) (c1 c2 : Client)
    (href : c1.ref = c2.ref)
    (happs : ∀ log url,
      (appsRound J1 c1 log url).map AppResponse.eraseCounters =
        (appsRound J2 c2 log url).map AppResponse.eraseCounters)
    (hroutes : ∀ log url,
      (getRoutesResponse J1 c1 log url).2 = (getRoutesResponse J2 c2 log url).2 ∧
      (getRoutesResponse J1 c1 log url).1.eraseCounters =
        (getRoutesResponse J2 c2 log url).1.eraseCounters) :
    (∀ (fuel : Nat) (url : String) (totalPages : Int),
      listApps J1 c1 fuel url totalPages = listApps J2 c2 fuel url totalPages) ∧
    (∀ (fuel : Nat) (url : String), fetchRoutes J1 c1 fuel url = fetchRoutes J2 c2 fuel url) ∧
    (∀ (fuel : Nat) (url : String) (totalPages : Int) (out : Fetched App),
      listApps J1 c1 fuel url totalPages = some out → out.err = none →
      ∃ pages : List AppResponse, pages ≠ [] ∧ AppChain J1 c1 [] url pages ∧
        out.requests.length = pages.length ∧
        (∀ p ∈ pages.dropLast, p.NextUrl ≠ "") ∧
        (pages.getLast?.map AppResponse.NextUrl = some "" ∨
          (0 < totalPages ∧ (pages.length : Int) = totalPages))) ∧
    (∀ (fuel : Nat) (url : String) (out : Fetched Route),
      fetchRoutes J1 c1 fuel url = some out → out.err = none →
      ∃ pages : List RoutesResponse, pages ≠ [] ∧ RouteChain J1 c1 [] url pages ∧
        out.requests.length = pages.length ∧
        (∀ p ∈ pages.dropLast, p.NextUrl ≠ "") ∧
        pages.getLast?.map RoutesResponse.NextUrl = some "") := by
  refine ⟨?_, ?_, ?_, ?_⟩
  · intro fuel url totalPages
    exact listAppsLoop_congr J1 J2 c1 c2 totalPages href happs fuel url 0 (some []) []
  · intro fuel url
    exact fetchRoutesLoop_congr J1 J2 c1 c2 href hroutes fuel url none []
  · intro fuel url totalPages out h herr
    obtain ⟨pages, hne, _, hchain, hopen, _, hstop, hout⟩ :=
      listApps_success J1 c1 fuel url totalPages out h herr
    exact ⟨pages, hne, hchain, by rw [hout]; simp [chainUrls_length], hopen, hstop⟩
  · intro fuel url out h herr
    obtain ⟨pages, hne, _, hchain, hopen, hlast, hout⟩ :=
      fetchRoutes_success J1 c1 fuel url out h herr
    exact ⟨pages, hne, hchain, by rw [hout]; simp [chainUrls_length], hopen, hlast⟩

/-- Witness for C10: the sample pages served with two different sets of
counters. -/
theorem fetch_independent_of_page_counters_witness :
    sampleCodec.appResponse "/v2/apps?" = .ok appPage1 ∧
    recountedCodec.appResponse "/v2/apps?" = .ok { appPage1 with Count := 41, Pages := 9 } ∧
    listApps sampleCodec sampleClient 3 "/v2/apps?" 0 =
      listApps recountedCodec sampleClient 3 "/v2/apps?" 0 ∧
    listApps sampleCodec sampleClient 3 "/v2/apps?" 2 =
      listApps recountedCodec sampleClient 3 "/v2/apps?" 2 ∧
    fetchRoutes sampleCodec sampleClient 2 "/v2/routes?" =
      fetchRoutes recountedCodec sampleClient 2 "/v2/routes?" :=
  have h := fetch_independent_of_page_counters sampleCodec recountedCodec sampleClient
    sampleClient rfl
    (fun log url => by
      simp only [appsRound, sampleClient, recountedCodec, Client.NewRequest]
      cases sampleCodec.appResponse url <;> rfl)
    (fun log url => by
      simp only [getRoutesResponse, sampleClient, recountedCodec, Client.NewRequest]
      cases sampleCodec.routesResponse url <;> exact ⟨rfl, rfl⟩)
  ⟨rfl, rfl, h.1 3 "/v2/apps?" 0, h.1 3 "/v2/apps?" 2, h.2.1 2 "/v2/routes?"⟩

/-! ## One-shot calls -/

/-- C13: `AssignDropletToApp` returns the zero-valued `V3DockerAppResponse` on
every path; when the request succeeds, the body is read and it decodes into
a `V3DockerAppResponse`, the call returns the zero value with a nil error,
whatever was decoded. -/
theorem AssignDropletToApp_returns_zero_value (E : V3Env) (appGUID dropletGUID : String) :
    (AssignDropletToApp E appGUID dropletGUID).1 = (default : V3DockerAppResponse) ∧
    (∀ (resp : Response) (resBody : String) (app : V3DockerAppResponse),
      E.DoRequest ⟨"PATCH", "/v3/apps/" ++ appGUID ++ "/relationships/current_droplet",
        E.encodeDroplet { Data := { GUID := dropletGUID } }⟩ = .ok resp →
      resp.Body = .ok resBody →
      E.unmarshalApp resBody = .ok app →
      AssignDropletToApp E appGUID dropletGUID = (default, none)) := by
  constructor
  · unfold AssignDropletToApp
    simp only []
    split
    · rfl
    · split
      · rfl
      · split <;> rfl
  · intro resp resBody app hd hb hj
    unfold AssignDropletToApp
    simp only [hd, hb, hj]

/-- Witness for C13: the sample server answers with a body that decodes to a
filled-in app, and the caller still receives the zero value. -/
theorem AssignDropletToApp_returns_zero_value_witness :
    (AssignDropletToApp sampleV3Env "a1" "d1").1 = (default : V3DockerAppResponse) ∧
    AssignDropletToApp sampleV3Env "a1" "d1" = (default, none) ∧
    sampleV3Env.unmarshalApp "/v3/apps/a1/relationships/current_droplet" =
      .ok { GUID := "a1", CreatedAt := "2016-06-08T16:41:45Z", UpdatedAt := "2016-06-09T16:41:45Z",
            Name := "app-a1", State := "STOPPED", Lifecycle := ⟨"docker"⟩ } :=
  ⟨(AssignDropletToApp_returns_zero_value sampleV3Env "a1" "d1").1,
    (AssignDropletToApp_returns_zero_value sampleV3Env "a1" "d1").2
      ⟨200, .ok "/v3/apps/a1/relationships/current_droplet"⟩
      "/v3/apps/a1/relationships/current_droplet" _ rfl rfl rfl,
    rfl⟩

/-- Whenever the request completes in transport, `KillAppInstance` returns
nil, whatever the status code. -/
theorem KillAppInstance_nil_when_transport_ok (c : Client) (guid index : String)
    (resp : Response)
    (h : c.DoRequest [] (c.NewRequest "DELETE" ("/v2/apps/" ++ guid ++ "/instances/" ++ index)) =
      .ok resp) :
    KillAppInstance c guid index = none := by
  unfold KillAppInstance
  simp only [h, errorsWrap]
  split <;> rfl

/-- C14: evaluation of `KillAppInstance` on a transport that completes the
request with status 200, 202 or 204: the call returns nil in all three cases,
also when the status is not 204. -/
theorem KillAppInstance_returns_nil_on_status_other_than_204 :
    (statusClient 200).DoRequest [] ⟨"DELETE", "/v2/apps/a1/instances/0"⟩ = .ok ⟨200, .ok ""⟩ ∧
    KillAppInstance (statusClient 200) "a1" "0" = none ∧
    KillAppInstance (statusClient 202) "a1" "0" = none ∧
    KillAppInstance (statusClient 204) "a1" "0" = none ∧
    errorsWrap none "Error stopping app a1 at index 0" = none := by
  refine ⟨rfl, by decide, by decide, by decide, rfl⟩

/-! ## Timestamp decoding -/

/-- C11 (as stated) fails: the bytes `1e19` parse as the number 10^19, whose
integer part is no `int64`. The decoder succeeds, and the instant it stores is
not 10^19 seconds after the epoch: on the sample platform it is the least
`int64`, and on no platform can it be 10^19. Likewise the bytes `NaN`, which
`strconv.ParseFloat` accepts though they stand for no number, do not make the
decoder fail. -/
theorem sinceTime_UnmarshalJSON_beyond_int64 :
    sampleLib.ParseFloat "1e19" = .ok (Float64.finite false 19073486328125 19) ∧
    (Float64.finite false 19073486328125 19).toRat = some 10000000000000000000 ∧
    truncRat 10000000000000000000 = 10000000000000000000 ∧
    sinceTime.UnmarshalJSON sampleLib default "1e19" =
      (⟨⟨-9223372036854775808, 0⟩⟩, none) ∧
    (∀ (L : Lib) (s : sinceTime) (b : String),
      L.ParseFloat b = .ok (Float64.finite false 19073486328125 19) →
      (sinceTime.UnmarshalJSON L s b).1.Time.sec ≠ 10000000000000000000) ∧
    sampleLib.ParseFloat "NaN" = .ok Float64.nan ∧
    (sinceTime.UnmarshalJSON sampleLib default "NaN").2 = none := by
  refine ⟨rfl, ?_, ?_, by decide, ?_, rfl, by decide⟩
  · simp only [Float64.toRat, Option.some.injEq]
    norm_num
  · rw [truncRat_of_nonneg _ (by norm_num)]
    exact Int.floor_natCast 10000000000000000000
  · intro L s b h
    have hr := toInt64_range L.floatToInt64 (Float64.finite false 19073486328125 19)
    simp only [sinceTime.UnmarshalJSON, h, Time.Unix]
    omega

/-- C11 (amended): when `strconv.ParseFloat` returns for the raw bytes a
finite `float64` of exact value x whose integer part trunc(x) (fraction
discarded, toward zero) is an `int64`, the decoder returns a nil error and
stores the instant trunc(x) whole seconds after the Unix epoch with zero
nanoseconds; when `strconv.ParseFloat` rejects the bytes, the decoder returns
that error and leaves the receiver unchanged. -/
theorem sinceTime_UnmarshalJSON_truncates_to_seconds (L : Lib) (s : sinceTime) (b : String) :
    (∀ (timeFlt : Float64) (x : ℚ) (n : Int),
      L.ParseFloat b = .ok timeFlt → timeFlt.toRat = some x → truncRat x = n →
      -(2 ^ 63) ≤ n → n < 2 ^ 63 →
      sinceTime.UnmarshalJSON L s b = (⟨⟨n, 0⟩⟩, none)) ∧
    (∀ err : GoError, L.ParseFloat b = .error err →
      sinceTime.UnmarshalJSON L s b = (s, some err)) := by
  constructor
  · intro timeFlt x n hp hx hn hlo hhi
    subst hn
    simp only [sinceTime.UnmarshalJSON, hp, toInt64_of_fits L.floatToInt64 timeFlt x hx hlo hhi,
      Time.Unix]
    simp
  · intro err hp
    simp only [sinceTime.UnmarshalJSON, hp]

/-- Witness for C11 (amended): on the sample library `1600000000` and
`1600000000.9` both decode to 2020-09-13T12:26:40Z, `-1.5` decodes to one
second before the epoch, and `soon` is rejected with the receiver left as it
was. -/
theorem sinceTime_UnmarshalJSON_truncates_to_seconds_witness :
    sinceTime.UnmarshalJSON sampleLib default "1600000000" =
      (⟨Time.DateUTC 2020 9 13 12 26 40⟩, none) ∧
    sinceTime.UnmarshalJSON sampleLib default "1600000000.9" =
      (⟨Time.DateUTC 2020 9 13 12 26 40⟩, none) ∧
    sinceTime.UnmarshalJSON sampleLib default "-1.5" = (⟨⟨-1, 0⟩⟩, none) ∧
    sinceTime.UnmarshalJSON sampleLib ⟨⟨5, 0⟩⟩ "soon" =
      (⟨⟨5, 0⟩⟩, some (GoError.base "strconv.ParseFloat: invalid syntax")) :=
  ⟨(sinceTime_UnmarshalJSON_truncates_to_seconds sampleLib default "1600000000").1
      (Float64.finite false 1600000000 0) 1600000000 1600000000 rfl
      (by simp [Float64.toRat])
      (by rw [truncRat_of_nonneg _ (by norm_num)]; exact Int.floor_natCast 1600000000)
      (by norm_num) (by norm_num),
    (sinceTime_UnmarshalJSON_truncates_to_seconds sampleLib default "1600000000.9").1
      (Float64.finite false 6710886403774874 (-22)) (6710886403774874 / 4194304) 1600000000 rfl
      (by simp only [Float64.toRat, Option.some.injEq]; norm_num)
      (by
        rw [truncRat_of_nonneg _ (by norm_num), Int.floor_eq_iff]
        constructor <;> norm_num)
      (by norm_num) (by norm_num),
    (sinceTime_UnmarshalJSON_truncates_to_seconds sampleLib default "-1.5").1
      (Float64.finite true 3 (-1)) (-3 / 2) (-1) rfl
      (by simp only [Float64.toRat, Option.some.injEq]; norm_num)
      (by
        unfold truncRat
        rw [if_neg (by norm_num), Int.ceil_eq_iff]
        constructor <;> norm_num)
      (by norm_num) (by norm_num),
    (sinceTime_UnmarshalJSON_truncates_to_seconds sampleLib ⟨⟨5, 0⟩⟩ "soon").2 _ rfl⟩

/-- C12: on a quoted string that unquotes to `timeString`, the decoder
`(*statTime).UnmarshalJSON` tries RFC3339, RFC3339Nano,
`2006-01-02 15:04:05 -0700` and `2006-01-02 15:04:05 MST` in that order. It
returns a nil error exactly when one of them parses `timeString`; it then
stores the instant of the earliest format that parses; when none parses it
leaves the receiver as it was and returns the error whose text starts with
`timeString` and lists the four formats. -/
theorem statTime_UnmarshalJSON_first_format_wins (L : Lib) (s : statTime) (b : String)
    (timeString : String) (hq : L.Unquote b = .ok timeString) :
    possibleFormats =
      ["2006-01-02T15:04:05Z07:00", "2006-01-02T15:04:05.999999999Z07:00",
        "2006-01-02 15:04:05 -0700", "2006-01-02 15:04:05 MST"] ∧
    ((statTime.UnmarshalJSON L s b).2 = none ↔
      ∃ layout ∈ possibleFormats, ∃ t, L.Parse layout timeString = .ok t) ∧
    (∀ (pre : List String) (layout : String) (post : List String) (t : Time),
      possibleFormats = pre ++ layout :: post →
      (∀ l ∈ pre, ∀ t1, L.Parse l timeString ≠ .ok t1) →
      L.Parse layout timeString = .ok t →
      statTime.UnmarshalJSON L s b = (⟨t⟩, none)) ∧
    ((∀ layout ∈ possibleFormats, ∀ t, L.Parse layout timeString ≠ .ok t) →
      statTime.UnmarshalJSON L s b =
        (s, some (GoError.base (timeString ++
          " was not in any of the expected Date Formats [2006-01-02T15:04:05Z07:00 2006-01-02T15:04:05.999999999Z07:00 2006-01-02 15:04:05 -0700 2006-01-02 15:04:05 MST]")))) := by
  have hrun : statTime.UnmarshalJSON L s b = statTimeRange L s timeString possibleFormats := by
    simp only [statTime.UnmarshalJSON, hq]
  refine ⟨rfl, ?_, ?_, ?_⟩
  · rw [hrun]
    exact statTimeRange_nil_iff L s timeString possibleFormats
  · intro pre layout post t hsplit hpre hparse
    rw [hrun, hsplit]
    exact statTimeRange_first L s timeString pre layout post t hpre hparse
  · intro hnone
    have hmsg : " was not in any of the expected Date Formats [" ++
        (" ".intercalate possibleFormats ++ "]") =
        " was not in any of the expected Date Formats [2006-01-02T15:04:05Z07:00 2006-01-02T15:04:05.999999999Z07:00 2006-01-02 15:04:05 -0700 2006-01-02 15:04:05 MST]" := by
      rfl
    rw [hrun, statTimeRange_none L s timeString possibleFormats hnone]
    simp only [statTimeError, String.append_assoc, hmsg]

/-- Witness for C12: on the sample library `2015-07-01 10:00:00 -0700` is
rejected by RFC3339 and RFC3339Nano and decoded by the third format (to
17:00:00 UTC), and `not-a-time` is rejected by all four. -/
theorem statTime_UnmarshalJSON_first_format_wins_witness :
    statTime.UnmarshalJSON sampleLib default "\"2015-07-01 10:00:00 -0700\"" =
      (⟨Time.DateUTC 2015 7 1 17 0 0⟩, none) ∧
    (∀ t, sampleLib.Parse RFC3339 "2015-07-01 10:00:00 -0700" ≠ .ok t) ∧
    statTime.UnmarshalJSON sampleLib default "\"not-a-time\"" =
      (default, some (GoError.base ("not-a-time" ++
        " was not in any of the expected Date Formats [2006-01-02T15:04:05Z07:00 2006-01-02T15:04:05.999999999Z07:00 2006-01-02 15:04:05 -0700 2006-01-02 15:04:05 MST]"))) :=
  ⟨(statTime_UnmarshalJSON_first_format_wins sampleLib default "\"2015-07-01 10:00:00 -0700\""
      "2015-07-01 10:00:00 -0700" rfl).2.2.1 [RFC3339, RFC3339Nano] "2006-01-02 15:04:05 -0700"
      ["2006-01-02 15:04:05 MST"] _ rfl
      (by
        intro l hl t1 h
        simp only [List.mem_cons, List.mem_singleton, List.not_mem_nil, or_false] at hl
        rcases hl with rfl | rfl <;> exact absurd h (by simp [sampleLib, RFC3339, RFC3339Nano]))
      rfl,
    (by intro t h; exact absurd h (by simp [sampleLib, RFC3339])),
    (statTime_UnmarshalJSON_first_format_wins sampleLib default "\"not-a-time\"" "not-a-time"
      rfl).2.2.2
      (by
        intro l _ t h
        exact absurd h (by simp [sampleLib]))⟩

end cfclient
